import Mathlib

/-!
Verification development for the BERT question-answering feature-extraction
pipeline of `utils_nlp/models/bert/common.py` (function `tokenize_qa` and its
helpers `_improve_answer_span` and `_check_is_max_context`).

The Python code is shallowly embedded as executable Lean definitions:

* Python ints are `Int` (arbitrary precision, so no overflow modelling needed);
  non-negative indices that Python never lets go negative are `Nat`.
* The sliding-window `while` loop of `tokenize_qa` does not always terminate
  (it loops forever when `max_tokens_for_doc <= 0` and the document is
  non-empty), so it is embedded fuel-indexed, returning `none` when fuel runs
  out.  Fuel `N.toNat + 1` is enough for every terminating run of the Python
  loop: whenever the Python loop terminates, every non-final iteration
  advances `start_offset` by at least 1 (otherwise `start_offset` would never
  grow and the loop could never exit), so there are at most `N` iterations.
* The floating-point score `min(left, right) + 0.01 * length` of
  `_check_is_max_context` is modelled exactly: all quantities are integers, so
  the comparison is equivalent to comparing integers `100 * min(left, right)
  + length` (the implementation below), which equals the rational score
  scaled by the exact factor 100; the rational form is stated separately and
  bridged by lemmas.  On these integer inputs the float computation of the
  source and the rational/scaled-integer model order scores identically at
  the concrete sizes involved in the claims.
* The external subword tokenizer is a black box: a parameter
  `tok : String → List String`; `convert_tokens_to_ids` is length-preserving
  per token, modelled as mapping a parameter `convert : String → Int`.
* Exceptions are `Except`.  The answer-recovery mismatch branch of the source
  executes `logger.warning`, but no `logger` is defined or imported anywhere
  in the module, so that branch raises `NameError` at runtime; it is embedded
  as the error `QAErr.nameError`.
* Out-of-range list indexing (which would raise `IndexError` in Python) is
  embedded with `getD` defaults; the claims under study never exercise those
  positions.  Python `str.split()` splits on a slightly larger whitespace set
  than `Char.isWhitespace`; the difference is immaterial for the inputs used
  here.
-/

/-- One sliding window over the subword document tokens: the namedtuple
`DocSpan(start, length)` of `tokenize_qa`. -/
structure DocSpan where
  start : Int
  length : Int
deriving Repr, DecidableEq

/-- The sliding-window generator loop of `tokenize_qa` (source lines 553-562),
fuel-indexed.  Each iteration emits a span of length
`if N - start > max_tokens_for_doc then max_tokens_for_doc else N - start`,
stops when the span ends exactly at `N`, and otherwise advances the start
offset by `min(length, doc_stride)`.  `none` means the fuel was exhausted,
which on adequate fuel means the Python loop does not terminate. -/
def docSpansLoop (N max_tokens_for_doc doc_stride : Int) : Nat → Int → Option (List DocSpan)
  | 0, _ => none
  | fuel + 1, start_offset =>
    if start_offset < N then
      let length := if N - start_offset > max_tokens_for_doc then max_tokens_for_doc
                    else N - start_offset
      if start_offset + length = N then
        some [⟨start_offset, length⟩]
      else
        match docSpansLoop N max_tokens_for_doc doc_stride fuel
            (start_offset + min length doc_stride) with
        | none => none
        | some rest => some (⟨start_offset, length⟩ :: rest)
    else
      some []

/-- The generator run from offset 0 with fuel `N.toNat + 1`, which suffices for
every terminating run of the Python loop (see the file comment). -/
def docSpans (N max_tokens_for_doc doc_stride : Int) : Option (List DocSpan) :=
  docSpansLoop N max_tokens_for_doc doc_stride (N.toNat + 1) 0

/-- Inclusive end position of a doc span: `doc_span.start + doc_span.length - 1`. -/
def spanEnd (s : DocSpan) : Int := s.start + s.length - 1

/-- Whether a global document-token position lies inside a span (the two
`continue` guards of `_check_is_max_context`, negated). -/
def spanContains (s : DocSpan) (position : Int) : Bool :=
  decide (s.start ≤ position ∧ position ≤ spanEnd s)

/-- The span score of `_check_is_max_context`, scaled by the exact factor 100:
`100 * min(num_left_context, num_right_context) + doc_span.length`.  Comparing
these integers is equivalent to comparing the source scores
`min(...) + 0.01 * length`. -/
def scoreI (s : DocSpan) (position : Int) : Int :=
  100 * min (position - s.start) (spanEnd s - position) + s.length

/-- The span score exactly as written in the source:
`min(position - start, end - position) + 0.01 * doc_span.length`, as a
rational number. -/
def spanScore (s : DocSpan) (position : Int) : ℚ :=
  ((min (position - s.start) (spanEnd s - position) : Int) : ℚ)
    + (1 / 100 : ℚ) * ((s.length : Int) : ℚ)

/-- The scan of `_check_is_max_context` over `enumerate(doc_spans)` keeping
`(best_score, best_span_index)`; a span strictly better than the current best
replaces it, ties keep the earlier index. -/
def maxContextScan (position : Int) : List DocSpan → Nat → Option (Int × Nat) → Option (Int × Nat)
  | [], _, best => best
  | s :: rest, idx, best =>
    if spanContains s position then
      match best with
      | none => maxContextScan position rest (idx + 1) (some (scoreI s position, idx))
      | some (bs, bi) =>
        if bs < scoreI s position then
          maxContextScan position rest (idx + 1) (some (scoreI s position, idx))
        else
          maxContextScan position rest (idx + 1) (some (bs, bi))
    else
      maxContextScan position rest (idx + 1) best

/-- `_check_is_max_context(doc_spans, cur_span_index, position)` (source lines
400-434): scan all spans, keep the best-scoring containing span (earliest on
ties), return whether the current span index is the kept one.  When no span
contains the position, `best_span_index` stays Python `None` and
`cur_span_index == None` is false. -/
def _check_is_max_context (doc_spans : List DocSpan) (cur_span_index : Nat)
    (position : Int) : Bool :=
  match maxContextScan position doc_spans 0 none with
  | none => false
  | some (_, bi) => decide (cur_span_index = bi)

/-- Python `" ".join(doc_tokens[a:(b + 1)])`. -/
def sliceJoin (doc_tokens : List String) (a b : Nat) : String :=
  String.intercalate " " ((doc_tokens.drop a).take (b + 1 - a))

/-- The inner loop of `_improve_answer_span`: `new_end` descending from
`new_start + k` down to `new_start`, returning the first end whose joined
slice equals the target. -/
def innerScan (doc_tokens : List String) (target : String) (new_start : Nat) : Nat → Option Nat
  | 0 =>
    if sliceJoin doc_tokens new_start new_start = target then some new_start else none
  | k + 1 =>
    if sliceJoin doc_tokens new_start (new_start + (k + 1)) = target then
      some (new_start + (k + 1))
    else
      innerScan doc_tokens target new_start k

/-- The outer loop of `_improve_answer_span`: `new_start` ascending while fuel
remains (`fuel = input_end + 1 - new_start` at entry), trying the inner
descending scan for each start. -/
def outerScanQA (doc_tokens : List String) (target : String) (input_end : Nat) :
    Nat → Nat → Option (Nat × Nat)
  | 0, _ => none
  | fuel + 1, s =>
    match innerScan doc_tokens target s (input_end - s) with
    | some e => some (s, e)
    | none => outerScanQA doc_tokens target input_end fuel (s + 1)

/-- `_improve_answer_span` (source lines 364-398): tokenize the original answer
text, join with spaces; search `new_start` ascending over
`[input_start, input_end]` and `new_end` descending from `input_end` to
`new_start`; return the first candidate whose joined slice equals the target,
else the input pair unchanged. -/
def _improve_answer_span (doc_tokens : List String) (input_start input_end : Nat)
    (tok : String → List String) (orig_answer_text : String) : Nat × Nat :=
  match outerScanQA doc_tokens (String.intercalate " " (tok orig_answer_text)) input_end
      (input_end + 1 - input_start) input_start with
  | some r => r
  | none => (input_start, input_end)

/-- `_is_whitespace` of `tokenize_qa`: space, tab, carriage return, newline or
the narrow no-break space U+202F. -/
def _is_whitespace (c : Char) : Bool :=
  c = ' ' ∨ c = '\t' ∨ c = '\r' ∨ c = '\n' ∨ c.toNat = 0x202F

/-- The whitespace document tokenizer of `tokenize_qa` (source lines 446-458):
split into words on `_is_whitespace`, collapsing runs, and record for every
character the index of the most recently started word (`len(d_tokens) - 1`,
which is `-1` for leading whitespace). -/
def docTokenizeAux : List Char → Bool → List String → List Int → List String × List Int
  | [], _, d_tokens, offsets => (d_tokens, offsets)
  | c :: cs, prev_is_whitespace, d_tokens, offsets =>
    if _is_whitespace c then
      docTokenizeAux cs true d_tokens (offsets ++ [(d_tokens.length : Int) - 1])
    else
      let d_tokens2 :=
        if prev_is_whitespace then d_tokens ++ [String.singleton c]
        else d_tokens.dropLast ++ [(d_tokens.getLastD "").push c]
      docTokenizeAux cs false d_tokens2 (offsets ++ [(d_tokens2.length : Int) - 1])

/-- Word tokens and character-to-word offset map for one document text. -/
def docTokenize (d_text : String) : List String × List Int :=
  docTokenizeAux d_text.toList true [] []

/-- Splitting a character list on whitespace runs, accumulating the current
word reversed; implements Python `text.strip().split()`. -/
def splitWsAux : List Char → List Char → List String
  | [], acc => if acc.isEmpty then [] else [String.mk acc.reverse]
  | c :: cs, acc =>
    if c.isWhitespace then
      (if acc.isEmpty then [] else [String.mk acc.reverse]) ++ splitWsAux cs []
    else splitWsAux cs (c :: acc)

/-- `whitespace_tokenize` of `pytorch_transformers`: strip and split on
whitespace runs. -/
def whitespace_tokenize (text : String) : List String :=
  splitWsAux text.toList []

/-- Whether `needle` occurs inside `hay`; Python `hay.find(needle) != -1`. -/
def hasSubstr (needle : List Char) : List Char → Bool
  | [] => needle.isEmpty
  | c :: rest => needle.isPrefixOf (c :: rest) || hasSubstr needle rest

/-- A Python argument that may be a bare string or a list of strings.
Iterating a bare string yields its characters as one-character strings. -/
inductive PySeq where
  | str (s : String)
  | list (l : List String)
deriving Repr, DecidableEq

/-- Python iteration over a string-or-list value. -/
def pyIter : PySeq → List String
  | .str s => s.toList.map fun c => String.singleton c
  | .list l => l

/-- Per-question answer data: either one scalar `(answer_start, answer_text)`
pair (auto-wrapped by the source into a one-element list) or parallel
sequences of starts and texts. -/
inductive PyAnswers where
  | scalar (answer_start : Nat) (answer_text : String)
  | seqs (answer_starts : List Nat) (answer_texts : List String)
deriving Repr, DecidableEq

/-- The exceptions `tokenize_qa` can raise while building examples:
the two explicit `raise Exception(...)` statements (answer starts/texts length
mismatch; more than one training answer) and the `NameError` escaping from the
undefined `logger` in the answer-recovery-mismatch branch. -/
inductive QAErr where
  | lengthMismatch
  | multipleAnswers
  | nameError
deriving Repr, DecidableEq

/-- `QAExample` as constructed by `tokenize_qa` (source lines 494-501).
`start_position`/`end_position` are Python `None` outside training mode,
`-1` sentinels for impossible training questions, and word indices
otherwise. -/
structure QAExample where
  qa_id : Nat
  doc_tokens : List String
  question_text : String
  orig_answer_text : String
  start_position : Option Int
  end_position : Option Int
  is_impossible : Bool
deriving Repr, DecidableEq

/-- The per-question loop over `(answer_start, answer_text)` pairs (source
lines 469-501).  In training mode for a possible question, the word span is
recovered from the character offsets and, when the recovered text does not
contain the normalized answer text, the source executes `logger.warning` with
`logger` undefined, so a `NameError` escapes (embedded as
`QAErr.nameError`). -/
def processPairs (is_training impossible : Bool) (d_tokens : List String)
    (char_to_word_offset : List Int) (q_text : String) (q_id : Nat) :
    List (Nat × String) → Except QAErr (List QAExample)
  | [] => .ok []
  | (s, t) :: rest =>
    if is_training then
      if !impossible then
        let start_position : Int := char_to_word_offset.getD s 0
        let end_position : Int := char_to_word_offset.getD (s + t.length - 1) 0
        let actual_text := String.intercalate " "
          ((d_tokens.drop start_position.toNat).take
            (end_position.toNat + 1 - start_position.toNat))
        let cleaned_answer_text := String.intercalate " " (whitespace_tokenize t)
        if ! hasSubstr cleaned_answer_text.toList actual_text.toList then
          .error .nameError
        else
          match processPairs is_training impossible d_tokens char_to_word_offset q_text q_id rest with
          | .error e => .error e
          | .ok more =>
            .ok (⟨q_id, d_tokens, q_text, t, some start_position, some end_position, impossible⟩ :: more)
      else
        match processPairs is_training impossible d_tokens char_to_word_offset q_text q_id rest with
        | .error e => .error e
        | .ok more =>
          .ok (⟨q_id, d_tokens, q_text, t, some (-1), some (-1), impossible⟩ :: more)
    else
      match processPairs is_training impossible d_tokens char_to_word_offset q_text q_id rest with
      | .error e => .error e
      | .ok more => .ok (⟨q_id, d_tokens, q_text, t, none, none, impossible⟩ :: more)

/-- Example construction for one question (source lines 444-501): whitespace
tokenization, the answer-shape checks on sequence-valued `answer_start`
(length mismatch; more than one answer for a trainable possible question),
scalar auto-wrapping, then the per-answer loop. -/
def buildExamplesForQuestion (is_training : Bool) (d_text q_text : String)
    (answers : PyAnswers) (q_id : Nat) (impossible : Bool) :
    Except QAErr (List QAExample) :=
  let dt := docTokenize d_text
  match answers with
  | .seqs starts texts =>
    if starts.length ≠ texts.length then .error .lengthMismatch
    else if 1 < starts.length ∧ is_training = true ∧ impossible = false then
      .error .multipleAnswers
    else processPairs is_training impossible dt.1 dt.2 q_text q_id (starts.zip texts)
  | .scalar s t => processPairs is_training impossible dt.1 dt.2 q_text q_id [(s, t)]

/-- Python `zip` over five parallel sequences, truncating to the shortest. -/
def zip5 {α β γ δ ε : Type} :
    List α → List β → List γ → List δ → List ε → List (α × β × γ × δ × ε)
  | a :: as_, b :: bs, c :: cs, d :: ds, e :: es =>
    (a, b, c, d, e) :: zip5 as_ bs cs ds es
  | _, _, _, _, _ => []

/-- The outer example loop over zipped per-question tuples. -/
def examplesLoop (is_training : Bool) :
    List (String × String × PyAnswers × Nat × Bool) → Except QAErr (List QAExample)
  | [] => .ok []
  | (d, q, a, i, imp) :: rest =>
    match buildExamplesForQuestion is_training d q a i imp with
    | .error e => .error e
    | .ok exs =>
      match examplesLoop is_training rest with
      | .error e => .error e
      | .ok more => .ok (exs ++ more)

/-- The example-building stage of `tokenize_qa` (source lines 437-501):
defaults for `qa_id` (positional) and `is_impossible` (all false), then the
zipped per-question loop.  Note the source performs no scalar-versus-sequence
validation on `doc_text`/`question_text`: a bare string is zipped and iterated
character by character. -/
def buildQAExamples (doc_text question_text : PySeq) (answers : List PyAnswers)
    (is_training : Bool) (qa_id : Option (List Nat)) (is_impossible : Option (List Bool)) :
    Except QAErr (List QAExample) :=
  let qs := pyIter question_text
  let ids := match qa_id with
    | some l => l
    | none => List.range qs.length
  let imps := match is_impossible with
    | some l => l
    | none => List.replicate qs.length false
  examplesLoop is_training (zip5 (pyIter doc_text) qs answers ids imps)

/-- Word-to-subword expansion (source lines 521-529): per original word `i`,
`orig_to_tok_index` records the running subword count, each produced subword
records `i` in `tok_to_orig_index`, and all subwords are concatenated.
Returns `(tok_to_orig_index, orig_to_tok_index, all_doc_tokens)`; the `Nat`
accumulator is the current length of `all_doc_tokens`. -/
def subTokenizeAux (tok : String → List String) :
    List String → Nat → Nat → List Nat × List Nat × List String
  | [], _, _ => ([], [], [])
  | t :: rest, i, acc =>
    let subs := tok t
    let r := subTokenizeAux tok rest (i + 1) (acc + subs.length)
    (subs.map (fun _ => i) ++ r.1, acc :: r.2.1, subs ++ r.2.2)

/-- Word-to-subword expansion of a whole document. -/
def subTokenize (tok : String → List String) (doc_tokens : List String) :
    List Nat × List Nat × List String :=
  subTokenizeAux tok doc_tokens 0 0

/-- `QAFeatures` as constructed by `tokenize_qa` (source lines 659-671).
`token_to_orig_map` and `token_is_max_context` are insertion-ordered maps keyed
by position-in-window, embedded as association lists. -/
structure QAFeature where
  unique_id : Nat
  example_index : Nat
  tokens : List String
  token_to_orig_map : List (Nat × Nat)
  token_is_max_context : List (Nat × Bool)
  input_ids : List Int
  input_mask : List Nat
  segment_ids : List Nat
  paragraph_len : Int
  start_position : Option Int
  end_position : Option Int
deriving Repr, DecidableEq

/-- Feature assembly for one doc span (source lines 564-671):
`[CLS] + query + [SEP] + window + [SEP]` with segment ids 0/0/0/1/1, the
per-window orig map and max-context map over the document-window region,
conversion to ids, right padding of ids/mask/segments with zeros up to
`max_len` (the mask is 1 on real tokens, 0 on padding), and the training
start/end label logic (window-local offsets, or the CLS index 0 when the
example is impossible or the refined answer span falls outside the window). -/
def buildFeature (convert : String → Int) (is_training : Bool) (max_len : Nat)
    (query_tokens all_doc_tokens : List String) (tok_to_orig_index : List Nat)
    (is_impossible : Bool) (tokPos : Option Int × Option Int) (example_index : Nat)
    (all_spans : List DocSpan) (span_index : Nat) (doc_span : DocSpan) (uid : Nat) :
    QAFeature :=
  let window := (all_doc_tokens.drop doc_span.start.toNat).take doc_span.length.toNat
  let tokens := ["[CLS]"] ++ query_tokens ++ ["[SEP]"] ++ window ++ ["[SEP]"]
  let segment_ids : List Nat :=
    [0] ++ query_tokens.map (fun _ => 0) ++ [0] ++ window.map (fun _ => 1) ++ [1]
  let token_to_orig_map := (List.range window.length).map fun i =>
    (query_tokens.length + 2 + i, tok_to_orig_index.getD (doc_span.start.toNat + i) 0)
  let token_is_max_context := (List.range window.length).map fun i =>
    (query_tokens.length + 2 + i,
      _check_is_max_context all_spans span_index (doc_span.start + (i : Int)))
  let input_ids := tokens.map convert ++ List.replicate (max_len - tokens.length) 0
  let input_mask : List Nat :=
    tokens.map (fun _ => 1) ++ List.replicate (max_len - tokens.length) 0
  let seg_padded := segment_ids ++ List.replicate (max_len - segment_ids.length) 0
  let ts := tokPos.1.getD 0
  let te := tokPos.2.getD 0
  let positions : Option Int × Option Int :=
    if is_training then
      if is_impossible then (some 0, some 0)
      else if !(doc_span.start ≤ ts ∧ te ≤ spanEnd doc_span) then (some 0, some 0)
      else (some (ts - doc_span.start + (query_tokens.length + 2 : Nat)),
            some (te - doc_span.start + (query_tokens.length + 2 : Nat)))
    else (none, none)
  ⟨uid, example_index, tokens, token_to_orig_map, token_is_max_context,
    input_ids, input_mask, seg_padded, doc_span.length, positions.1, positions.2⟩

/-- The per-example loop over generated doc spans, threading the global
`unique_id` counter. -/
def spansLoop (convert : String → Int) (is_training : Bool) (max_len : Nat)
    (query_tokens all_doc_tokens : List String) (tok_to_orig_index : List Nat)
    (is_impossible : Bool) (tokPos : Option Int × Option Int) (example_index : Nat)
    (all_spans : List DocSpan) : List DocSpan → Nat → Nat → List QAFeature × Nat
  | [], _, uid => ([], uid)
  | s :: rest, idx, uid =>
    let f := buildFeature convert is_training max_len query_tokens all_doc_tokens
      tok_to_orig_index is_impossible tokPos example_index all_spans idx s uid
    let r := spansLoop convert is_training max_len query_tokens all_doc_tokens
      tok_to_orig_index is_impossible tokPos example_index all_spans rest (idx + 1) (uid + 1)
    (f :: r.1, r.2)

/-- Query tokenization with truncation to `max_query_length` (source lines
516-519). -/
def exQueryTokens (tok : String → List String) (max_query_length : Nat)
    (ex : QAExample) : List String :=
  let query_tokens0 := tok ex.question_text
  if max_query_length < query_tokens0.length then query_tokens0.take max_query_length
  else query_tokens0

/-- The training-mode subword answer positions of one example (source lines
531-544): the `-1` sentinels for impossible questions, otherwise the
word-to-subword mapped span refined by `_improve_answer_span`; Python `None`
outside training mode. -/
def exTokPositions (tok : String → List String) (is_training : Bool)
    (ex : QAExample) : Option Int × Option Int :=
  let st := subTokenize tok ex.doc_tokens
  let orig_to_tok_index := st.2.1
  let all_doc_tokens := st.2.2
  if is_training ∧ ex.is_impossible then (some (-1), some (-1))
  else if is_training ∧ ex.is_impossible = false then
    let sp := (ex.start_position.getD 0).toNat
    let ep := (ex.end_position.getD 0).toNat
    let ts : Nat := orig_to_tok_index.getD sp 0
    let te : Nat :=
      if (ep : Int) < (ex.doc_tokens.length : Int) - 1 then
        orig_to_tok_index.getD (ep + 1) 0 - 1
      else all_doc_tokens.length - 1
    let r := _improve_answer_span all_doc_tokens ts te tok ex.orig_answer_text
    (some (r.1 : Int), some (r.2 : Int))
  else (none, none)

/-- Feature extraction for one example (source lines 515-672): query
tokenization and truncation to `max_query_length`, subword expansion, training
answer-position refinement via `_improve_answer_span`,
`max_tokens_for_doc = max_len - len(query_tokens) - 3`, sliding-window span
generation, then one feature per span.  Returns `none` when the span loop
does not terminate. -/
def featuresForExample (tok : String → List String) (convert : String → Int)
    (is_training : Bool) (max_query_length max_len : Nat) (doc_stride : Int)
    (example_index : Nat) (ex : QAExample) (uid : Nat) :
    Option (List QAFeature × Nat) :=
  match docSpans ((subTokenize tok ex.doc_tokens).2.2.length : Int)
      ((max_len : Int) - (exQueryTokens tok max_query_length ex).length - 3) doc_stride with
  | none => none
  | some doc_spans =>
    some (spansLoop convert is_training max_len (exQueryTokens tok max_query_length ex)
      (subTokenize tok ex.doc_tokens).2.2 (subTokenize tok ex.doc_tokens).1
      ex.is_impossible (exTokPositions tok is_training ex) example_index
      doc_spans doc_spans 0 uid)

/-- The outer feature loop over examples, threading `example_index` and the
global `unique_id` counter. -/
def featuresLoop (tok : String → List String) (convert : String → Int)
    (is_training : Bool) (max_query_length max_len : Nat) (doc_stride : Int) :
    List QAExample → Nat → Nat → Option (List QAFeature)
  | [], _, _ => some []
  | ex :: rest, ei, uid =>
    match featuresForExample tok convert is_training max_query_length max_len doc_stride ei ex uid with
    | none => none
    | some r =>
      match featuresLoop tok convert is_training max_query_length max_len doc_stride rest (ei + 1) r.2 with
      | none => none
      | some more => some (r.1 ++ more)

/-- `Tokenizer.tokenize_qa` (source lines 341-674): build the examples, then
the features, with the `unique_id` counter starting at 1000000000.
`Except.error` embeds a raised exception; `Except.ok none` embeds
non-termination of the sliding-window loop; `Except.ok (some (features,
examples))` is the normal return value. -/
def tokenize_qa (tok : String → List String) (convert : String → Int)
    (doc_text question_text : PySeq) (answers : List PyAnswers) (is_training : Bool)
    (max_query_length max_len : Nat) (doc_stride : Int)
    (qa_id : Option (List Nat)) (is_impossible : Option (List Bool)) :
    Except QAErr (Option (List QAFeature × List QAExample)) :=
  match buildQAExamples doc_text question_text answers is_training qa_id is_impossible with
  | .error e => .error e
  | .ok qa_examples =>
    match featuresLoop tok convert is_training max_query_length max_len doc_stride
        qa_examples 0 1000000000 with
    | none => .ok none
    | some features => .ok (some (features, qa_examples))

/-- The feature list of a pipeline outcome (empty on error or divergence). -/
def qaResultFeatures : Except QAErr (Option (List QAFeature × List QAExample)) → List QAFeature
  | .ok (some r) => r.1
  | _ => []

/-- The example list of a pipeline outcome (empty on error or divergence). -/
def qaResultExamples : Except QAErr (Option (List QAFeature × List QAExample)) → List QAExample
  | .ok (some r) => r.2
  | _ => []

/-- Whether an example-stage outcome is a normal return. -/
def exceptOk : Except QAErr (List QAExample) → Bool
  | .ok _ => true
  | .error _ => false

/-- The example list of an example-stage outcome (empty on error). -/
def exceptExamples : Except QAErr (List QAExample) → List QAExample
  | .ok l => l
  | .error _ => []

/-- Whether the span at index `k` of a span list contains a position
(out-of-range indices give the empty span, which contains nothing). -/
def containsAt (position : Int) (l : List DocSpan) (k : Nat) : Bool :=
  spanContains (l.getD k ⟨0, 0⟩) position

/-- The scaled integer score of the span at index `k` of a span list. -/
def scoreAt (position : Int) (l : List DocSpan) (k : Nat) : Int :=
  scoreI (l.getD k ⟨0, 0⟩) position

/-- When `max_tokens_for_doc ≤ 0` and the document is non-empty, the sliding
window loop never terminates: from any non-positive start offset it emits a
non-positive-length span and does not advance forward, so every fuel runs
out.  This is the divergence behind claim C1. -/
theorem docSpansLoop_diverge (N max_tokens_for_doc doc_stride : Int)
    (hm : max_tokens_for_doc ≤ 0) (hN : 0 < N) :
    ∀ (fuel : Nat) (start : Int), start ≤ 0 →
      docSpansLoop N max_tokens_for_doc doc_stride fuel start = none := by
  intro fuel
  induction fuel with
  | zero => intro start _; rfl
  | succ n ih =>
    intro start hs
    have h1 : start < N := lt_of_le_of_lt hs hN
    have h2 : N - start > max_tokens_for_doc := by omega
    have h3 : ¬ (start + max_tokens_for_doc = N) := by omega
    simp only [docSpansLoop, if_pos h1, if_pos h2, if_neg h3]
    rw [ih (start + min max_tokens_for_doc doc_stride) (by omega)]

/-- Characterization of every successful run of the sliding-window loop: each
emitted span starts below `N` and has length `min(remaining, max_tokens_for_doc)`;
the first span starts at the entry offset; consecutive spans advance by
`min(previous length, doc_stride)`; the final span ends exactly at `N`; and the
spans cover every position from the entry offset up to `N`. -/
theorem docSpansLoop_sound (N max_tokens_for_doc doc_stride : Int) :
    ∀ (fuel : Nat) (start : Int) (spans : List DocSpan),
      docSpansLoop N max_tokens_for_doc doc_stride fuel start = some spans →
      (∀ s ∈ spans, s.start < N ∧ s.length = min (N - s.start) max_tokens_for_doc) ∧
      (start < N → ∃ rest, spans = ⟨start, min (N - start) max_tokens_for_doc⟩ :: rest) ∧
      (¬ start < N → spans = []) ∧
      List.Chain' (fun a b => b.start = a.start + min a.length doc_stride) spans ∧
      (∀ lastSpan, spans.getLast? = some lastSpan → lastSpan.start + lastSpan.length = N) ∧
      (∀ p : Int, start ≤ p → p < N → ∃ s ∈ spans, s.start ≤ p ∧ p < s.start + s.length) := by
  intro fuel
  induction fuel with
  | zero => intro start spans h; exact absurd h (by simp [docSpansLoop])
  | succ n ih =>
    intro start spans h
    by_cases hlt : start < N
    · simp only [docSpansLoop, if_pos hlt] at h
      set L := if N - start > max_tokens_for_doc then max_tokens_for_doc else N - start
        with hLdef
      have hL : L = min (N - start) max_tokens_for_doc := by
        rw [hLdef]; split <;> omega
      by_cases hterm : start + L = N
      · rw [if_pos hterm] at h
        have hspans : spans = [⟨start, L⟩] := by
          injection h with h2; exact h2.symm
        subst hspans
        refine ⟨?_, ?_, ?_, ?_, ?_, ?_⟩
        · intro s hs
          simp only [List.mem_singleton] at hs
          subst hs
          exact ⟨hlt, hL⟩
        · intro _; exact ⟨[], by rw [hL]⟩
        · intro hc; exact absurd hlt hc
        · exact List.chain'_singleton _
        · intro lastSpan hl
          simp only [List.getLast?_singleton, Option.some.injEq] at hl
          subst hl
          exact hterm
        · intro p hp1 hp2
          refine ⟨⟨start, L⟩, List.mem_singleton_self _, hp1, ?_⟩
          show p < start + L
          omega
      · rw [if_neg hterm] at h
        rcases hrec : docSpansLoop N max_tokens_for_doc doc_stride n
            (start + min L doc_stride) with _ | rest
        · rw [hrec] at h; exact absurd h (by simp)
        · rw [hrec] at h
          have hspans : spans = ⟨start, L⟩ :: rest := by
            injection h with h2; exact h2.symm
          subst hspans
          obtain ⟨ih1, ih2, ih3, ih4, ih5, ih6⟩ := ih (start + min L doc_stride) rest hrec
          -- in the non-terminal branch the remaining document exceeds the cap
          have hcap : L = max_tokens_for_doc ∧ max_tokens_for_doc < N - start := by
            by_cases hgt : N - start > max_tokens_for_doc
            · constructor
              · rw [hLdef, if_pos hgt]
              · omega
            · exfalso; apply hterm; omega
          have hnext_lt : start + min L doc_stride < N := by
            have : min L doc_stride ≤ L := min_le_left _ _
            omega
          obtain ⟨rest2, hrest2⟩ := ih2 hnext_lt
          refine ⟨?_, ?_, ?_, ?_, ?_, ?_⟩
          · intro s hs
            rcases List.mem_cons.mp hs with hs | hs
            · subst hs; exact ⟨hlt, hL⟩
            · exact ih1 s hs
          · intro _; exact ⟨rest, by rw [hL]⟩
          · intro hc; exact absurd hlt hc
          · rw [List.chain'_cons']
            refine ⟨?_, ih4⟩
            intro b hb
            rw [hrest2] at hb
            simp only [List.head?_cons, Option.mem_def, Option.some.injEq] at hb
            subst hb
            rfl
          · intro lastSpan hl
            rw [hrest2, List.getLast?_cons_cons] at hl
            apply ih5 lastSpan
            rw [hrest2]
            exact hl
          · intro p hp1 hp2
            by_cases hin : p < start + L
            · exact ⟨⟨start, L⟩, List.mem_cons_self _ _, hp1, hin⟩
            · have hge : start + min L doc_stride ≤ p := by
                have : min L doc_stride ≤ L := min_le_left _ _
                omega
              obtain ⟨s, hs, hsp⟩ := ih6 p hge hp2
              exact ⟨s, List.mem_cons_of_mem _ hs, hsp⟩
    · simp only [docSpansLoop, if_neg hlt] at h
      have hspans : spans = [] := by
        injection h with h2; exact h2.symm
      subst hspans
      refine ⟨?_, ?_, ?_, ?_, ?_, ?_⟩
      · intro s hs; exact absurd hs (List.not_mem_nil s)
      · intro hc; exact absurd hc hlt
      · intro _; rfl
      · exact List.chain'_nil
      · intro lastSpan hl; exact absurd hl (by simp)
      · intro p hp1 hp2; exact absurd hlt (by omega)

/-- With a positive window cap and a positive stride, the sliding-window loop
terminates: fuel exceeding the remaining token count suffices. -/
theorem docSpansLoop_total (N max_tokens_for_doc doc_stride : Int)
    (hm : 0 < max_tokens_for_doc) (hs : 0 < doc_stride) :
    ∀ (fuel : Nat) (start : Int), (N - start).toNat < fuel →
      ∃ spans, docSpansLoop N max_tokens_for_doc doc_stride fuel start = some spans := by
  intro fuel
  induction fuel with
  | zero => intro start hf; omega
  | succ n ih =>
    intro start hf
    by_cases hlt : start < N
    · simp only [docSpansLoop, if_pos hlt]
      set L := if N - start > max_tokens_for_doc then max_tokens_for_doc else N - start
        with hLdef
      have hL1 : 1 ≤ L := by rw [hLdef]; split <;> omega
      by_cases hterm : start + L = N
      · exact ⟨[⟨start, L⟩], by rw [if_pos hterm]⟩
      · rw [if_neg hterm]
        have hlemin : 1 ≤ min L doc_stride := le_min hL1 hs
        obtain ⟨rest, hrest⟩ := ih (start + min L doc_stride) (by omega)
        exact ⟨⟨start, L⟩ :: rest, by rw [hrest]⟩
    · exact ⟨[], by simp only [docSpansLoop, if_neg hlt]⟩

/-- With a positive window cap and a positive stride, every emitted span starts
at or after the entry offset. -/
theorem docSpansLoop_mono (N max_tokens_for_doc doc_stride : Int)
    (hm : 0 < max_tokens_for_doc) (hs : 0 < doc_stride) :
    ∀ (fuel : Nat) (start : Int) (spans : List DocSpan),
      docSpansLoop N max_tokens_for_doc doc_stride fuel start = some spans →
      ∀ s ∈ spans, start ≤ s.start := by
  intro fuel
  induction fuel with
  | zero => intro start spans h; exact absurd h (by simp [docSpansLoop])
  | succ n ih =>
    intro start spans h
    by_cases hlt : start < N
    · simp only [docSpansLoop, if_pos hlt] at h
      set L := if N - start > max_tokens_for_doc then max_tokens_for_doc else N - start
        with hLdef
      have hL1 : 1 ≤ L := by rw [hLdef]; split <;> omega
      by_cases hterm : start + L = N
      · rw [if_pos hterm] at h
        have hspans : spans = [⟨start, L⟩] := by injection h with h2; exact h2.symm
        subst hspans
        intro s hs2
        simp only [List.mem_singleton] at hs2
        subst hs2
        exact le_refl _
      · rw [if_neg hterm] at h
        rcases hrec : docSpansLoop N max_tokens_for_doc doc_stride n
            (start + min L doc_stride) with _ | rest
        · rw [hrec] at h; exact absurd h (by simp)
        · rw [hrec] at h
          have hspans : spans = ⟨start, L⟩ :: rest := by injection h with h2; exact h2.symm
          subst hspans
          intro s hs2
          rcases List.mem_cons.mp hs2 with hs2 | hs2
          · subst hs2; exact le_refl _
          · have hlemin : 1 ≤ min L doc_stride := le_min hL1 hs
            have := ih (start + min L doc_stride) rest hrec s hs2
            omega
    · simp only [docSpansLoop, if_neg hlt] at h
      have hspans : spans = [] := by injection h with h2; exact h2.symm
      subst hspans
      intro s hs2
      exact absurd hs2 (List.not_mem_nil s)

/-- Claim C1: the specification requires that when
`max_tokens_for_doc = max_len - len(query_tokens) - 3 ≤ 0` the pipeline fails
fast with a fatal `WindowOverflowError` and the span generator terminates
without emitting empty or negative spans.  The code does the opposite: no such
error exists anywhere in the module, and the sliding-window `while` loop runs
forever (every fuel bound is exhausted; the first part), so on a concrete
input with one document token, a one-subword question and `max_len = 4`
(giving `max_tokens_for_doc = 0`) the whole pipeline diverges instead of
raising (the second part, where `Except.ok none` marks the non-terminating
run). -/
theorem claim_C1_window_overflow_divergence :
    (∀ fuel : Nat, docSpansLoop 1 0 128 fuel 0 = none) ∧
    tokenize_qa (fun s => [s]) (fun _ => 1) (.list ["a"]) (.list ["q"]) [.scalar 0 "a"]
      false 64 4 128 none none = .ok none :=
  ⟨fun fuel => docSpansLoop_diverge 1 0 128 (by norm_num) (by norm_num) fuel 0 (by norm_num),
    rfl⟩

/-- Claim C2: for a positive subword count `N`, a positive window cap and a
positive stride, the generator terminates from offset 0; the first span starts
at 0; every span has length `min(remaining, max_tokens_for_doc)`; consecutive
spans advance by `min(span length, doc_stride)`; the spans cover exactly the
interval `[0, N)`; and the final span ends exactly at `N`. -/
theorem claim_C2_sliding_window_coverage (N max_tokens_for_doc doc_stride : Int)
    (hN : 0 < N) (hm : 0 < max_tokens_for_doc) (hs : 0 < doc_stride) :
    ∃ spans, docSpans N max_tokens_for_doc doc_stride = some spans ∧
      (∃ rest, spans = ⟨0, min N max_tokens_for_doc⟩ :: rest) ∧
      (∀ s ∈ spans, s.length = min (N - s.start) max_tokens_for_doc) ∧
      List.Chain' (fun a b => b.start = a.start + min a.length doc_stride) spans ∧
      (∀ p : Int, (0 ≤ p ∧ p < N) ↔ ∃ s ∈ spans, s.start ≤ p ∧ p < s.start + s.length) ∧
      (∃ lastSpan, spans.getLast? = some lastSpan ∧
        lastSpan.start + lastSpan.length = N) := by
  obtain ⟨spans, hspans⟩ := docSpansLoop_total N max_tokens_for_doc doc_stride hm hs
    (N.toNat + 1) 0 (by omega)
  obtain ⟨h1, h2, _, h4, h5, h6⟩ := docSpansLoop_sound N max_tokens_for_doc doc_stride
    (N.toNat + 1) 0 spans hspans
  have hmono := docSpansLoop_mono N max_tokens_for_doc doc_stride hm hs
    (N.toNat + 1) 0 spans hspans
  obtain ⟨rest, hrest⟩ := h2 hN
  refine ⟨spans, hspans, ⟨rest, by rw [hrest]; norm_num⟩, fun s hs2 => (h1 s hs2).2, h4,
    ?_, ?_⟩
  · intro p
    constructor
    · intro ⟨hp1, hp2⟩; exact h6 p hp1 hp2
    · intro ⟨s, hs2, hsp1, hsp2⟩
      have hm0 := hmono s hs2
      have := (h1 s hs2).2
      constructor
      · omega
      · have : s.length ≤ N - s.start := by omega
        omega
  · have hne : spans ≠ [] := by rw [hrest]; exact List.cons_ne_nil _ _
    have hsome : spans.getLast?.isSome = true := List.getLast?_isSome.mpr hne
    rcases hl : spans.getLast? with _ | lastSpan
    · rw [hl] at hsome; exact absurd hsome (by simp)
    · exact ⟨lastSpan, rfl, h5 lastSpan hl⟩

/-- Witness for claim C2 at `N = 5`, `max_tokens_for_doc = 2`, `doc_stride = 1`. -/
theorem claim_C2_witness :
    (0 : Int) < 5 ∧ (0 : Int) < 2 ∧ (0 : Int) < 1 ∧
    (∃ spans, docSpans 5 2 1 = some spans ∧
      (∃ rest, spans = ⟨0, min 5 2⟩ :: rest) ∧
      (∀ s ∈ spans, s.length = min (5 - s.start) 2) ∧
      List.Chain' (fun a b => b.start = a.start + min a.length 1) spans ∧
      (∀ p : Int, (0 ≤ p ∧ p < 5) ↔ ∃ s ∈ spans, s.start ≤ p ∧ p < s.start + s.length) ∧
      (∃ lastSpan, spans.getLast? = some lastSpan ∧
        lastSpan.start + lastSpan.length = 5)) :=
  ⟨by norm_num, by norm_num, by norm_num,
    claim_C2_sliding_window_coverage 5 2 1 (by norm_num) (by norm_num) (by norm_num)⟩

/-- Index 0 of a cons span list contains a position exactly when its head does. -/
theorem containsAt_cons_zero (p : Int) (s : DocSpan) (rest : List DocSpan) :
    containsAt p (s :: rest) 0 = spanContains s p := rfl

/-- Index `k + 1` of a cons span list defers to index `k` of the tail. -/
theorem containsAt_cons_succ (p : Int) (s : DocSpan) (rest : List DocSpan) (k : Nat) :
    containsAt p (s :: rest) (k + 1) = containsAt p rest k := rfl

/-- Score at index 0 of a cons span list. -/
theorem scoreAt_cons_zero (p : Int) (s : DocSpan) (rest : List DocSpan) :
    scoreAt p (s :: rest) 0 = scoreI s p := rfl

/-- Score at index `k + 1` of a cons span list. -/
theorem scoreAt_cons_succ (p : Int) (s : DocSpan) (rest : List DocSpan) (k : Nat) :
    scoreAt p (s :: rest) (k + 1) = scoreAt p rest k := rfl

/-- Characterization of the best-span scan seeded with a current best
`(bs, bi)`: it reports index `cur` exactly when either the seed survives
(`cur = bi` and no later containing span strictly beats `bs`) or some
containing span at offset `k` wins (its score strictly beats the seed and all
earlier containing spans, and weakly beats all containing spans). -/
theorem maxContextScan_some_iff (p : Int) :
    ∀ (l : List DocSpan) (idx bi cur : Nat) (bs : Int),
      (∃ sc, maxContextScan p l idx (some (bs, bi)) = some (sc, cur)) ↔
        ((cur = bi ∧ ∀ k, k < l.length → containsAt p l k = true → scoreAt p l k ≤ bs) ∨
         (∃ k, k < l.length ∧ cur = idx + k ∧ containsAt p l k = true ∧
            bs < scoreAt p l k ∧
            (∀ j, j < k → containsAt p l j = true → scoreAt p l j < scoreAt p l k) ∧
            (∀ j, j < l.length → containsAt p l j = true →
              scoreAt p l j ≤ scoreAt p l k))) := by
  intro l
  induction l with
  | nil =>
    intro idx bi cur bs
    constructor
    · rintro ⟨sc, hsc⟩
      rw [maxContextScan] at hsc
      injection hsc with h2
      injection h2 with h3 h4
      left
      exact ⟨h4.symm, fun k hk _ => absurd hk (by simp at hk ⊢)⟩
    · rintro (⟨hcur, _⟩ | ⟨k, hk, _⟩)
      · subst hcur
        exact ⟨bs, by rw [maxContextScan]⟩
      · exact absurd hk (by simp)
  | cons s rest ih =>
    intro idx bi cur bs
    by_cases hc : spanContains s p
    · by_cases hb : bs < scoreI s p
      · have hscan : maxContextScan p (s :: rest) idx (some (bs, bi)) =
            maxContextScan p rest (idx + 1) (some (scoreI s p, idx)) := by
          simp only [maxContextScan, hc, if_true, if_pos hb]
        rw [hscan, ih]
        constructor
        · rintro (⟨hcur, hall⟩ | ⟨k, hk, hcur, hck, hbk, hjlt, hjle⟩)
          · right
            refine ⟨0, by simp, by omega, ?_, ?_, ?_, ?_⟩
            · rw [containsAt_cons_zero]; exact hc
            · rw [scoreAt_cons_zero]; exact hb
            · intro j hj _; omega
            · intro j hj hcj
              cases j with
              | zero => rw [scoreAt_cons_zero]
              | succ j2 =>
                rw [scoreAt_cons_succ, scoreAt_cons_zero]
                exact hall j2 (by simp at hj; omega) (by rwa [containsAt_cons_succ] at hcj)
          · right
            refine ⟨k + 1, by simp; omega, by omega, ?_, ?_, ?_, ?_⟩
            · rwa [containsAt_cons_succ]
            · rw [scoreAt_cons_succ]; omega
            · intro j hj hcj
              cases j with
              | zero => rw [scoreAt_cons_zero, scoreAt_cons_succ]; exact hbk
              | succ j2 =>
                rw [scoreAt_cons_succ, scoreAt_cons_succ]
                exact hjlt j2 (by omega) (by rwa [containsAt_cons_succ] at hcj)
            · intro j hj hcj
              cases j with
              | zero => rw [scoreAt_cons_zero, scoreAt_cons_succ]; omega
              | succ j2 =>
                rw [scoreAt_cons_succ, scoreAt_cons_succ]
                exact hjle j2 (by simp at hj; omega) (by rwa [containsAt_cons_succ] at hcj)
        · rintro (⟨hcur, hall⟩ | ⟨k, hk, hcur, hck, hbk, hjlt, hjle⟩)
          · exfalso
            have h0 := hall 0 (by simp) (by rw [containsAt_cons_zero]; exact hc)
            rw [scoreAt_cons_zero] at h0
            omega
          · cases k with
            | zero =>
              left
              refine ⟨by omega, ?_⟩
              intro k2 hk2 hck2
              have := hjle (k2 + 1) (by simp; omega)
                (by rwa [containsAt_cons_succ])
              rw [scoreAt_cons_succ, scoreAt_cons_zero] at this
              exact this
            | succ k2 =>
              right
              have hs0 := hjlt 0 (by omega) (by rw [containsAt_cons_zero]; exact hc)
              rw [scoreAt_cons_zero, scoreAt_cons_succ] at hs0
              refine ⟨k2, by simp at hk; omega, by omega,
                by rwa [containsAt_cons_succ] at hck, hs0, ?_, ?_⟩
              · intro j hj hcj
                have := hjlt (j + 1) (by omega) (by rwa [containsAt_cons_succ])
                rwa [scoreAt_cons_succ, scoreAt_cons_succ] at this
              · intro j hj hcj
                have := hjle (j + 1) (by simp; omega) (by rwa [containsAt_cons_succ])
                rwa [scoreAt_cons_succ, scoreAt_cons_succ] at this
      · have hscan : maxContextScan p (s :: rest) idx (some (bs, bi)) =
            maxContextScan p rest (idx + 1) (some (bs, bi)) := by
          simp only [maxContextScan, hc, if_true, if_neg hb]
        rw [hscan, ih]
        constructor
        · rintro (⟨hcur, hall⟩ | ⟨k, hk, hcur, hck, hbk, hjlt, hjle⟩)
          · left
            refine ⟨hcur, ?_⟩
            intro k hk hck
            cases k with
            | zero => rw [scoreAt_cons_zero]; omega
            | succ k2 =>
              rw [scoreAt_cons_succ]
              exact hall k2 (by simp at hk; omega) (by rwa [containsAt_cons_succ] at hck)
          · right
            refine ⟨k + 1, by simp; omega, by omega, by rwa [containsAt_cons_succ],
              by rwa [scoreAt_cons_succ], ?_, ?_⟩
            · intro j hj hcj
              cases j with
              | zero => rw [scoreAt_cons_zero, scoreAt_cons_succ]; omega
              | succ j2 =>
                rw [scoreAt_cons_succ, scoreAt_cons_succ]
                exact hjlt j2 (by omega) (by rwa [containsAt_cons_succ] at hcj)
            · intro j hj hcj
              cases j with
              | zero => rw [scoreAt_cons_zero, scoreAt_cons_succ]; omega
              | succ j2 =>
                rw [scoreAt_cons_succ, scoreAt_cons_succ]
                exact hjle j2 (by simp at hj; omega) (by rwa [containsAt_cons_succ] at hcj)
        · rintro (⟨hcur, hall⟩ | ⟨k, hk, hcur, hck, hbk, hjlt, hjle⟩)
          · left
            refine ⟨hcur, ?_⟩
            intro k hk hck
            have := hall (k + 1) (by simp; omega) (by rwa [containsAt_cons_succ])
            rwa [scoreAt_cons_succ] at this
          · cases k with
            | zero =>
              exfalso
              rw [scoreAt_cons_zero] at hbk
              omega
            | succ k2 =>
              right
              refine ⟨k2, by simp at hk; omega, by omega,
                by rwa [containsAt_cons_succ] at hck, by rwa [scoreAt_cons_succ] at hbk,
                ?_, ?_⟩
              · intro j hj hcj
                have := hjlt (j + 1) (by omega) (by rwa [containsAt_cons_succ])
                rwa [scoreAt_cons_succ, scoreAt_cons_succ] at this
              · intro j hj hcj
                have := hjle (j + 1) (by simp; omega) (by rwa [containsAt_cons_succ])
                rwa [scoreAt_cons_succ, scoreAt_cons_succ] at this
    · have hscan : maxContextScan p (s :: rest) idx (some (bs, bi)) =
          maxContextScan p rest (idx + 1) (some (bs, bi)) := by
        simp only [maxContextScan, hc]
        rw [if_neg (by simp [hc])]
      rw [hscan, ih]
      have hc0 : containsAt p (s :: rest) 0 = false := by
        rw [containsAt_cons_zero]
        exact Bool.not_eq_true _ ▸ (by simpa using hc)
      constructor
      · rintro (⟨hcur, hall⟩ | ⟨k, hk, hcur, hck, hbk, hjlt, hjle⟩)
        · left
          refine ⟨hcur, ?_⟩
          intro k hk hck
          cases k with
          | zero => rw [hc0] at hck; exact absurd hck (by simp)
          | succ k2 =>
            rw [scoreAt_cons_succ]
            exact hall k2 (by simp at hk; omega) (by rwa [containsAt_cons_succ] at hck)
        · right
          refine ⟨k + 1, by simp; omega, by omega, by rwa [containsAt_cons_succ],
            by rwa [scoreAt_cons_succ], ?_, ?_⟩
          · intro j hj hcj
            cases j with
            | zero => rw [hc0] at hcj; exact absurd hcj (by simp)
            | succ j2 =>
              rw [scoreAt_cons_succ, scoreAt_cons_succ]
              exact hjlt j2 (by omega) (by rwa [containsAt_cons_succ] at hcj)
          · intro j hj hcj
            cases j with
            | zero => rw [hc0] at hcj; exact absurd hcj (by simp)
            | succ j2 =>
              rw [scoreAt_cons_succ, scoreAt_cons_succ]
              exact hjle j2 (by simp at hj; omega) (by rwa [containsAt_cons_succ] at hcj)
      · rintro (⟨hcur, hall⟩ | ⟨k, hk, hcur, hck, hbk, hjlt, hjle⟩)
        · left
          refine ⟨hcur, ?_⟩
          intro k hk hck
          have := hall (k + 1) (by simp; omega) (by rwa [containsAt_cons_succ])
          rwa [scoreAt_cons_succ] at this
        · cases k with
          | zero => rw [hc0] at hck; exact absurd hck (by simp)
          | succ k2 =>
            right
            refine ⟨k2, by simp at hk; omega, by omega,
              by rwa [containsAt_cons_succ] at hck, by rwa [scoreAt_cons_succ] at hbk,
              ?_, ?_⟩
            · intro j hj hcj
              have := hjlt (j + 1) (by omega) (by rwa [containsAt_cons_succ])
              rwa [scoreAt_cons_succ, scoreAt_cons_succ] at this
            · intro j hj hcj
              have := hjle (j + 1) (by simp; omega) (by rwa [containsAt_cons_succ])
              rwa [scoreAt_cons_succ, scoreAt_cons_succ] at this

/-- Characterization of the best-span scan started (as in the source) with no
current best: it reports index `cur` exactly when `cur` is the offset of a
containing span whose score strictly beats every earlier containing span and
weakly beats every containing span — the earliest maximum. -/
theorem maxContextScan_none_iff (p : Int) :
    ∀ (l : List DocSpan) (idx cur : Nat),
      (∃ sc, maxContextScan p l idx none = some (sc, cur)) ↔
        (∃ k, k < l.length ∧ cur = idx + k ∧ containsAt p l k = true ∧
          (∀ j, j < k → containsAt p l j = true → scoreAt p l j < scoreAt p l k) ∧
          (∀ j, j < l.length → containsAt p l j = true →
            scoreAt p l j ≤ scoreAt p l k)) := by
  intro l
  induction l with
  | nil =>
    intro idx cur
    constructor
    · rintro ⟨sc, hsc⟩
      rw [maxContextScan] at hsc
      exact absurd hsc (by simp)
    · rintro ⟨k, hk, _⟩
      exact absurd hk (by simp)
  | cons s rest ih =>
    intro idx cur
    by_cases hc : spanContains s p
    · have hscan : maxContextScan p (s :: rest) idx none =
          maxContextScan p rest (idx + 1) (some (scoreI s p, idx)) := by
        simp only [maxContextScan, hc, if_true]
      rw [hscan, maxContextScan_some_iff]
      constructor
      · rintro (⟨hcur, hall⟩ | ⟨k, hk, hcur, hck, hbk, hjlt, hjle⟩)
        · refine ⟨0, by simp, by omega, by rw [containsAt_cons_zero]; exact hc, ?_, ?_⟩
          · intro j hj _; omega
          · intro j hj hcj
            cases j with
            | zero => exact le_refl _
            | succ j2 =>
              rw [scoreAt_cons_succ, scoreAt_cons_zero]
              exact hall j2 (by simp at hj; omega) (by rwa [containsAt_cons_succ] at hcj)
        · refine ⟨k + 1, by simp; omega, by omega, by rwa [containsAt_cons_succ], ?_, ?_⟩
          · intro j hj hcj
            cases j with
            | zero => rw [scoreAt_cons_zero, scoreAt_cons_succ]; exact hbk
            | succ j2 =>
              rw [scoreAt_cons_succ, scoreAt_cons_succ]
              exact hjlt j2 (by omega) (by rwa [containsAt_cons_succ] at hcj)
          · intro j hj hcj
            cases j with
            | zero => rw [scoreAt_cons_zero, scoreAt_cons_succ]; omega
            | succ j2 =>
              rw [scoreAt_cons_succ, scoreAt_cons_succ]
              exact hjle j2 (by simp at hj; omega) (by rwa [containsAt_cons_succ] at hcj)
      · rintro ⟨k, hk, hcur, hck, hjlt, hjle⟩
        cases k with
        | zero =>
          left
          refine ⟨by omega, ?_⟩
          intro k2 hk2 hck2
          have := hjle (k2 + 1) (by simp; omega) (by rwa [containsAt_cons_succ])
          rwa [scoreAt_cons_succ, scoreAt_cons_zero] at this
        | succ k2 =>
          right
          have hs0 := hjlt 0 (by omega) (by rw [containsAt_cons_zero]; exact hc)
          rw [scoreAt_cons_zero, scoreAt_cons_succ] at hs0
          refine ⟨k2, by simp at hk; omega, by omega,
            by rwa [containsAt_cons_succ] at hck, hs0, ?_, ?_⟩
          · intro j hj hcj
            have := hjlt (j + 1) (by omega) (by rwa [containsAt_cons_succ])
            rwa [scoreAt_cons_succ, scoreAt_cons_succ] at this
          · intro j hj hcj
            have := hjle (j + 1) (by simp; omega) (by rwa [containsAt_cons_succ])
            rwa [scoreAt_cons_succ, scoreAt_cons_succ] at this
    · have hscan : maxContextScan p (s :: rest) idx none =
          maxContextScan p rest (idx + 1) none := by
        simp only [maxContextScan, hc]
        rw [if_neg (by simp [hc])]
      rw [hscan, ih]
      have hc0 : containsAt p (s :: rest) 0 = false := by
        rw [containsAt_cons_zero]
        simpa using hc
      constructor
      · rintro ⟨k, hk, hcur, hck, hjlt, hjle⟩
        refine ⟨k + 1, by simp; omega, by omega, by rwa [containsAt_cons_succ], ?_, ?_⟩
        · intro j hj hcj
          cases j with
          | zero => rw [hc0] at hcj; exact absurd hcj (by simp)
          | succ j2 =>
            rw [scoreAt_cons_succ, scoreAt_cons_succ]
            exact hjlt j2 (by omega) (by rwa [containsAt_cons_succ] at hcj)
        · intro j hj hcj
          cases j with
          | zero => rw [hc0] at hcj; exact absurd hcj (by simp)
          | succ j2 =>
            rw [scoreAt_cons_succ, scoreAt_cons_succ]
            exact hjle j2 (by simp at hj; omega) (by rwa [containsAt_cons_succ] at hcj)
      · rintro ⟨k, hk, hcur, hck, hjlt, hjle⟩
        cases k with
        | zero => rw [hc0] at hck; exact absurd hck (by simp)
        | succ k2 =>
          refine ⟨k2, by simp at hk; omega, by omega,
            by rwa [containsAt_cons_succ] at hck, ?_, ?_⟩
          · intro j hj hcj
            have := hjlt (j + 1) (by omega) (by rwa [containsAt_cons_succ])
            rwa [scoreAt_cons_succ, scoreAt_cons_succ] at this
          · intro j hj hcj
            have := hjle (j + 1) (by simp; omega) (by rwa [containsAt_cons_succ])
            rwa [scoreAt_cons_succ, scoreAt_cons_succ] at this

/-- Once the scan holds a best candidate it never returns to none. -/
theorem maxContextScan_some_isSome (p : Int) :
    ∀ (l : List DocSpan) (idx : Nat) (b : Int × Nat),
      ∃ r, maxContextScan p l idx (some b) = some r := by
  intro l
  induction l with
  | nil => intro idx b; exact ⟨b, rfl⟩
  | cons s rest ih =>
    intro idx b
    by_cases hc : spanContains s p
    · by_cases hb : b.1 < scoreI s p
      · obtain ⟨r, hr⟩ := ih (idx + 1) (scoreI s p, idx)
        refine ⟨r, ?_⟩
        rw [show maxContextScan p (s :: rest) idx (some b) =
          maxContextScan p rest (idx + 1) (some (scoreI s p, idx)) from ?_]
        · exact hr
        · obtain ⟨b1, b2⟩ := b
          simp only [maxContextScan, hc, if_true]
          rw [if_pos hb]
      · obtain ⟨r, hr⟩ := ih (idx + 1) b
        refine ⟨r, ?_⟩
        rw [show maxContextScan p (s :: rest) idx (some b) =
          maxContextScan p rest (idx + 1) (some b) from ?_]
        · exact hr
        · obtain ⟨b1, b2⟩ := b
          simp only [maxContextScan, hc, if_true]
          rw [if_neg hb]
    · obtain ⟨r, hr⟩ := ih (idx + 1) b
      refine ⟨r, ?_⟩
      rw [show maxContextScan p (s :: rest) idx (some b) =
        maxContextScan p rest (idx + 1) (some b) from ?_]
      · exact hr
      · simp only [maxContextScan, hc]
        rw [if_neg (by simp [hc])]

/-- If some span of the list contains the position, the scan returns a best
candidate. -/
theorem maxContextScan_total (p : Int) :
    ∀ (l : List DocSpan) (idx : Nat),
      (∃ k, k < l.length ∧ containsAt p l k = true) →
      ∃ r, maxContextScan p l idx none = some r := by
  intro l
  induction l with
  | nil =>
    rintro idx ⟨k, hk, _⟩
    exact absurd hk (by simp)
  | cons s rest ih =>
    rintro idx ⟨k, hk, hck⟩
    by_cases hc : spanContains s p
    · obtain ⟨r, hr⟩ := maxContextScan_some_isSome p rest (idx + 1) (scoreI s p, idx)
      refine ⟨r, ?_⟩
      rw [show maxContextScan p (s :: rest) idx none =
        maxContextScan p rest (idx + 1) (some (scoreI s p, idx)) from by
          simp only [maxContextScan, hc, if_true]]
      exact hr
    · cases k with
      | zero =>
        rw [containsAt_cons_zero] at hck
        exact absurd hck hc
      | succ k2 =>
        obtain ⟨r, hr⟩ := ih (idx + 1)
          ⟨k2, by simp at hk; omega, by rwa [containsAt_cons_succ] at hck⟩
        refine ⟨r, ?_⟩
        rw [show maxContextScan p (s :: rest) idx none =
          maxContextScan p rest (idx + 1) none from by
            simp only [maxContextScan, hc]
            rw [if_neg (by simp [hc])]]
        exact hr

/-- The source score is the scaled integer score divided by 100. -/
theorem spanScore_eq_div (s : DocSpan) (p : Int) :
    spanScore s p = (scoreI s p : ℚ) / 100 := by
  rw [spanScore, scoreI]
  push_cast
  ring

/-- Strict comparison of source scores matches the scaled integer scores. -/
theorem spanScore_lt_iff (a b : DocSpan) (p : Int) :
    spanScore a p < spanScore b p ↔ scoreI a p < scoreI b p := by
  rw [spanScore_eq_div, spanScore_eq_div,
    div_lt_div_iff_of_pos_right (by norm_num : (0 : ℚ) < 100)]
  exact Int.cast_lt

/-- Weak comparison of source scores matches the scaled integer scores. -/
theorem spanScore_le_iff (a b : DocSpan) (p : Int) :
    spanScore a p ≤ spanScore b p ↔ scoreI a p ≤ scoreI b p := by
  rw [spanScore_eq_div, spanScore_eq_div,
    div_le_div_iff_of_pos_right (by norm_num : (0 : ℚ) < 100)]
  exact Int.cast_le

/-- `_check_is_max_context` is true exactly when the scan reports the current
index. -/
theorem check_eq_true_iff (spans : List DocSpan) (cur : Nat) (p : Int) :
    _check_is_max_context spans cur p = true ↔
      ∃ sc, maxContextScan p spans 0 none = some (sc, cur) := by
  rcases h : maxContextScan p spans 0 none with _ | r
  · simp only [_check_is_max_context, h]
    constructor
    · intro hc; exact absurd hc (by simp)
    · rintro ⟨sc, hsc⟩; exact absurd hsc (by simp)
  · obtain ⟨sc, bi⟩ := r
    simp only [_check_is_max_context, h, decide_eq_true_eq]
    constructor
    · intro hcur; exact ⟨sc, by rw [hcur]⟩
    · rintro ⟨sc2, hsc⟩
      injection hsc with h2
      injection h2 with h3 h4
      exact h4.symm

/-- Claim C3 counterexample: on the span list `[(0,2), (1,2)]` at position 1,
both spans contain the position with equal scores (both
`min(left, right) = 0` and equal lengths), so the current span 0 is not
strictly best; yet `_check_is_max_context` returns true for span 0, because
the code keeps the earliest index on ties.  This refutes the claimed
"strictly best" characterization. -/
theorem claim_C3_counterexample :
    _check_is_max_context [⟨0, 2⟩, ⟨1, 2⟩] 0 1 = true ∧
    spanContains (⟨1, 2⟩ : DocSpan) 1 = true ∧
    spanScore ⟨1, 2⟩ 1 = spanScore ⟨0, 2⟩ 1 := by
  refine ⟨by decide, by decide, ?_⟩
  have h : scoreI ⟨1, 2⟩ 1 = scoreI ⟨0, 2⟩ 1 := by decide
  rw [spanScore_eq_div, spanScore_eq_div, h]

/-- Claim C3 (amended): for a current span containing the position,
`_check_is_max_context` returns true iff the current span is the earliest span
attaining the maximum score: its score `min(position - start, end - position)
+ 0.01 * length` is at least the score of every containing span and strictly
greater than the score of every earlier-indexed containing span.  (The
original claim required the current span to be strictly best among all
containing spans; on exact score ties the code instead keeps the earliest
index, see the counterexample.) -/
theorem claim_C3_max_context_first_argmax (spans : List DocSpan) (cur : Nat) (p : Int)
    (h1 : cur < spans.length) (h2 : spanContains (spans.getD cur ⟨0, 0⟩) p = true) :
    _check_is_max_context spans cur p = true ↔
      ((∀ j, j < spans.length → spanContains (spans.getD j ⟨0, 0⟩) p = true →
          spanScore (spans.getD j ⟨0, 0⟩) p ≤ spanScore (spans.getD cur ⟨0, 0⟩) p) ∧
       (∀ j, j < cur → spanContains (spans.getD j ⟨0, 0⟩) p = true →
          spanScore (spans.getD j ⟨0, 0⟩) p < spanScore (spans.getD cur ⟨0, 0⟩) p)) := by
  rw [check_eq_true_iff, maxContextScan_none_iff]
  simp only [containsAt, scoreAt]
  constructor
  · rintro ⟨k, hk, hcur, hck, hjlt, hjle⟩
    have hkc : k = cur := by omega
    subst hkc
    constructor
    · intro j hj hcj
      rw [spanScore_le_iff]
      exact hjle j hj hcj
    · intro j hj hcj
      rw [spanScore_lt_iff]
      exact hjlt j hj hcj
  · rintro ⟨hle, hlt⟩
    refine ⟨cur, h1, by omega, h2, ?_, ?_⟩
    · intro j hj hcj
      have := hlt j hj hcj
      rwa [spanScore_lt_iff] at this
    · intro j hj hcj
      have := hle j hj hcj
      rwa [spanScore_le_iff] at this

/-- Witness for the amended claim C3 on the single containing span `(0,3)` at
position 1. -/
theorem claim_C3_witness :
    0 < ([⟨0, 3⟩] : List DocSpan).length ∧
    spanContains (([⟨0, 3⟩] : List DocSpan).getD 0 ⟨0, 0⟩) 1 = true ∧
    (_check_is_max_context [⟨0, 3⟩] 0 1 = true ↔
      ((∀ j, j < ([⟨0, 3⟩] : List DocSpan).length →
          spanContains (([⟨0, 3⟩] : List DocSpan).getD j ⟨0, 0⟩) 1 = true →
          spanScore (([⟨0, 3⟩] : List DocSpan).getD j ⟨0, 0⟩) 1 ≤
            spanScore (([⟨0, 3⟩] : List DocSpan).getD 0 ⟨0, 0⟩) 1) ∧
       (∀ j, j < 0 → spanContains (([⟨0, 3⟩] : List DocSpan).getD j ⟨0, 0⟩) 1 = true →
          spanScore (([⟨0, 3⟩] : List DocSpan).getD j ⟨0, 0⟩) 1 <
            spanScore (([⟨0, 3⟩] : List DocSpan).getD 0 ⟨0, 0⟩) 1))) :=
  ⟨by decide, by decide,
    claim_C3_max_context_first_argmax [⟨0, 3⟩] 0 1 (by decide) (by decide)⟩

/-- Claim C7: for every position contained in two or more spans of the list
(in particular every document-token position covered by two or more
overlapping windows of one example), exactly one span index is reported as
max context by `_check_is_max_context` — never zero, never more than one. -/
theorem claim_C7_max_context_unique (spans : List DocSpan) (p : Int)
    (h : ∃ i j, i < j ∧ j < spans.length ∧
      spanContains (spans.getD i ⟨0, 0⟩) p = true ∧
      spanContains (spans.getD j ⟨0, 0⟩) p = true) :
    ∃! k, k < spans.length ∧ spanContains (spans.getD k ⟨0, 0⟩) p = true ∧
      _check_is_max_context spans k p = true := by
  obtain ⟨i, j, hij, hjlen, hci, hcj⟩ := h
  obtain ⟨⟨sc, bi⟩, hr⟩ := maxContextScan_total p spans 0 ⟨i, by omega, hci⟩
  have hcheck : ∀ k2 : Nat, _check_is_max_context spans k2 p = decide (k2 = bi) := by
    intro k2
    simp only [_check_is_max_context, hr]
  have hbi : bi < spans.length ∧ containsAt p spans bi = true := by
    have hx : ∃ sc2, maxContextScan p spans 0 none = some (sc2, bi) := ⟨sc, hr⟩
    rw [maxContextScan_none_iff] at hx
    obtain ⟨k, hk, hcur, hck, _⟩ := hx
    have hkb : bi = k := by omega
    subst hkb
    exact ⟨hk, hck⟩
  refine ⟨bi, ⟨hbi.1, hbi.2, by rw [hcheck]; simp⟩, ?_⟩
  rintro k2 ⟨_, _, hk2⟩
  rw [hcheck] at hk2
  simpa using hk2

/-- Witness for claim C7: position 1 is contained in both spans of
`[(0,2), (1,2)]`, and exactly one of the two indices is max context. -/
theorem claim_C7_witness :
    ∃! k, k < ([⟨0, 2⟩, ⟨1, 2⟩] : List DocSpan).length ∧
      spanContains (([⟨0, 2⟩, ⟨1, 2⟩] : List DocSpan).getD k ⟨0, 0⟩) 1 = true ∧
      _check_is_max_context [⟨0, 2⟩, ⟨1, 2⟩] k 1 = true :=
  claim_C7_max_context_unique [⟨0, 2⟩, ⟨1, 2⟩] 1
    ⟨0, 1, by decide, by decide, by decide, by decide⟩

/-- A successful inner (descending) scan returns the largest matching end in
`[new_start, new_start + k]`, with no match above it. -/
theorem innerScan_some (doc_tokens : List String) (target : String) (s : Nat) :
    ∀ (k e : Nat), innerScan doc_tokens target s k = some e →
      s ≤ e ∧ e ≤ s + k ∧ sliceJoin doc_tokens s e = target ∧
      ∀ e2, e < e2 → e2 ≤ s + k → sliceJoin doc_tokens s e2 ≠ target := by
  intro k
  induction k with
  | zero =>
    intro e h
    rw [innerScan] at h
    by_cases hm : sliceJoin doc_tokens s s = target
    · rw [if_pos hm] at h
      injection h with h2
      subst h2
      exact ⟨le_refl _, by omega, hm, fun e2 h1 h2 => by omega⟩
    · rw [if_neg hm] at h
      exact absurd h (by simp)
  | succ k ih =>
    intro e h
    rw [innerScan] at h
    by_cases hm : sliceJoin doc_tokens s (s + (k + 1)) = target
    · rw [if_pos hm] at h
      injection h with h2
      subst h2
      exact ⟨by omega, by omega, hm, fun e2 h1 h2 => by omega⟩
    · rw [if_neg hm] at h
      obtain ⟨h1, h2, h3, h4⟩ := ih e h
      refine ⟨h1, by omega, h3, ?_⟩
      intro e2 he1 he2
      by_cases he : e2 = s + (k + 1)
      · subst he; exact hm
      · exact h4 e2 he1 (by omega)

/-- A failed inner scan means no end in `[new_start, new_start + k]` matches. -/
theorem innerScan_none (doc_tokens : List String) (target : String) (s : Nat) :
    ∀ k, innerScan doc_tokens target s k = none →
      ∀ e, s ≤ e → e ≤ s + k → sliceJoin doc_tokens s e ≠ target := by
  intro k
  induction k with
  | zero =>
    intro h e h1 h2
    have he : e = s := by omega
    subst he
    intro hm
    rw [innerScan, if_pos hm] at h
    exact absurd h (by simp)
  | succ k ih =>
    intro h e h1 h2
    rw [innerScan] at h
    by_cases hm : sliceJoin doc_tokens s (s + (k + 1)) = target
    · rw [if_pos hm] at h
      exact absurd h (by simp)
    · rw [if_neg hm] at h
      by_cases he : e = s + (k + 1)
      · subst he; exact hm
      · exact ih h e h1 (by omega)

/-- A successful outer scan returns the first match in the search order
(starts ascending, ends descending): the returned start admits no match with a
larger end, and no strictly earlier start admits any match. -/
theorem outerScanQA_some (doc_tokens : List String) (target : String) (input_end : Nat) :
    ∀ (fuel s rs re : Nat), s + fuel = input_end + 1 →
      outerScanQA doc_tokens target input_end fuel s = some (rs, re) →
      s ≤ rs ∧ rs ≤ re ∧ re ≤ input_end ∧ sliceJoin doc_tokens rs re = target ∧
      (∀ e2, re < e2 → e2 ≤ input_end → sliceJoin doc_tokens rs e2 ≠ target) ∧
      (∀ s2 e2, s ≤ s2 → s2 < rs → s2 ≤ e2 → e2 ≤ input_end →
        sliceJoin doc_tokens s2 e2 ≠ target) := by
  intro fuel
  induction fuel with
  | zero =>
    intro s rs re hinv h
    exact absurd h (by rw [outerScanQA]; simp)
  | succ n ih =>
    intro s rs re hinv h
    rw [outerScanQA] at h
    rcases hin : innerScan doc_tokens target s (input_end - s) with _ | e
    · rw [hin] at h
      obtain ⟨h1, h2, h3, h4, h5, h6⟩ := ih (s + 1) rs re (by omega) h
      refine ⟨by omega, h2, h3, h4, h5, ?_⟩
      intro s2 e2 hs2a hs2b he2a he2b
      by_cases hs2 : s2 = s
      · subst hs2
        exact innerScan_none doc_tokens target s2 (input_end - s2) hin e2 he2a (by omega)
      · exact h6 s2 e2 (by omega) hs2b he2a he2b
    · rw [hin] at h
      injection h with h2
      injection h2 with h3 h4
      subst h3
      subst h4
      obtain ⟨i1, i2, i3, i4⟩ := innerScan_some doc_tokens target s (input_end - s) e hin
      refine ⟨le_refl _, i1, by omega, i3, ?_, ?_⟩
      · intro e2 he1 he2
        exact i4 e2 he1 (by omega)
      · intro s2 e2 hs2a hs2b _ _
        exact absurd hs2b (by omega)

/-- A failed outer scan means no candidate in the remaining search space
matches. -/
theorem outerScanQA_none (doc_tokens : List String) (target : String) (input_end : Nat) :
    ∀ (fuel s : Nat), s + fuel = input_end + 1 →
      outerScanQA doc_tokens target input_end fuel s = none →
      ∀ s2 e2, s ≤ s2 → s2 ≤ e2 → e2 ≤ input_end →
        sliceJoin doc_tokens s2 e2 ≠ target := by
  intro fuel
  induction fuel with
  | zero =>
    intro s hinv h s2 e2 h1 h2 h3
    exact absurd h3 (by omega)
  | succ n ih =>
    intro s hinv h s2 e2 h1 h2 h3
    rw [outerScanQA] at h
    rcases hin : innerScan doc_tokens target s (input_end - s) with _ | e
    · rw [hin] at h
      by_cases hs2 : s2 = s
      · subst hs2
        exact innerScan_none doc_tokens target s2 (input_end - s2) hin e2 h2 (by omega)
      · exact ih (s + 1) (by omega) h s2 e2 (by omega) h2 h3
    · rw [hin] at h
      exact absurd h (by simp)

/-- Claim C4: the Answer Span Aligner `_improve_answer_span` enumerates
candidates with `new_start` ascending over `[input_start, input_end]` and, for
each start, `new_end` descending from `input_end` to `new_start`; it returns
the first candidate whose space-joined subword slice equals the space-joined
tokenization of the original answer text; if no candidate matches it returns
the provisional pair unchanged, and it never fails (it is a total function).
First-match order is expressed as: the result is a matching candidate in
range, every matching candidate has a start at or after the result start, and
a matching candidate at the same start has an end at or below the result
end. -/
theorem claim_C4_improve_answer_span (doc_tokens : List String)
    (tok : String → List String) (orig_answer_text : String)
    (input_start input_end : Nat) :
    ∀ r, _improve_answer_span doc_tokens input_start input_end tok orig_answer_text = r →
      ((∀ s e, input_start ≤ s → s ≤ input_end → s ≤ e → e ≤ input_end →
          sliceJoin doc_tokens s e ≠ String.intercalate " " (tok orig_answer_text)) →
        r = (input_start, input_end)) ∧
      (∀ s e, input_start ≤ s → s ≤ input_end → s ≤ e → e ≤ input_end →
        sliceJoin doc_tokens s e = String.intercalate " " (tok orig_answer_text) →
        (input_start ≤ r.1 ∧ r.1 ≤ r.2 ∧ r.2 ≤ input_end ∧
         sliceJoin doc_tokens r.1 r.2 = String.intercalate " " (tok orig_answer_text) ∧
         r.1 ≤ s ∧ (r.1 = s → e ≤ r.2))) := by
  intro r hr
  rw [_improve_answer_span] at hr
  by_cases hrange : input_start ≤ input_end
  · have hinv : input_start + (input_end + 1 - input_start) = input_end + 1 := by omega
    rcases hout : outerScanQA doc_tokens (String.intercalate " " (tok orig_answer_text))
        input_end (input_end + 1 - input_start) input_start with _ | rse
    · rw [hout] at hr
      have hr2 : (input_start, input_end) = r := hr
      have hnone := outerScanQA_none doc_tokens
        (String.intercalate " " (tok orig_answer_text)) input_end
        (input_end + 1 - input_start) input_start hinv hout
      constructor
      · intro _; exact hr2.symm
      · intro s e h1 h2 h3 h4 hm
        exact absurd hm (hnone s e h1 h3 h4)
    · obtain ⟨rs, re⟩ := rse
      rw [hout] at hr
      have hr2 : (rs, re) = r := hr
      obtain ⟨o1, o2, o3, o4, o5, o6⟩ := outerScanQA_some doc_tokens
        (String.intercalate " " (tok orig_answer_text)) input_end
        (input_end + 1 - input_start) input_start rs re hinv hout
      constructor
      · intro hnomatch
        exact absurd o4 (hnomatch rs re o1 (by omega) o2 o3)
      · intro s e h1 h2 h3 h4 hm
        subst hr2
        refine ⟨o1, o2, o3, o4, ?_, ?_⟩
        · by_contra hlt
          exact absurd hm (o6 s e h1 (by omega) h3 h4)
        · intro heq
          subst heq
          by_contra hgt
          exact absurd hm (o5 e (by omega) h4)
  · have hfuel : input_end + 1 - input_start = 0 := by omega
    rw [hfuel] at hr
    rw [outerScanQA] at hr
    have hr2 : (input_start, input_end) = r := hr
    constructor
    · intro _; exact hr2.symm
    · intro s e h1 h2 h3 h4 hm
      exact absurd h2 (by omega)

/-- Witness for claim C4 on the docstring example of the source: document
subword tokens `["(", "1895", "-", "1943", ")", "."]`, identity subword
tokenizer, answer text "1895"; the candidate `(1, 1)` matches and the aligner
refines the provisional span `(0, 5)` to it. -/
theorem claim_C4_witness :
    sliceJoin ["(", "1895", "-", "1943", ")", "."] 1 1 =
      String.intercalate " " ((fun s => [s]) "1895") ∧
    (0 ≤ (_improve_answer_span ["(", "1895", "-", "1943", ")", "."] 0 5
        (fun s => [s]) "1895").1 ∧
     (_improve_answer_span ["(", "1895", "-", "1943", ")", "."] 0 5
        (fun s => [s]) "1895").1 ≤
       (_improve_answer_span ["(", "1895", "-", "1943", ")", "."] 0 5
        (fun s => [s]) "1895").2 ∧
     (_improve_answer_span ["(", "1895", "-", "1943", ")", "."] 0 5
        (fun s => [s]) "1895").2 ≤ 5 ∧
     sliceJoin ["(", "1895", "-", "1943", ")", "."]
       (_improve_answer_span ["(", "1895", "-", "1943", ")", "."] 0 5
         (fun s => [s]) "1895").1
       (_improve_answer_span ["(", "1895", "-", "1943", ")", "."] 0 5
         (fun s => [s]) "1895").2 =
       String.intercalate " " ((fun s => [s]) "1895") ∧
     (_improve_answer_span ["(", "1895", "-", "1943", ")", "."] 0 5
        (fun s => [s]) "1895").1 ≤ 1 ∧
     ((_improve_answer_span ["(", "1895", "-", "1943", ")", "."] 0 5
        (fun s => [s]) "1895").1 = 1 →
       1 ≤ (_improve_answer_span ["(", "1895", "-", "1943", ")", "."] 0 5
        (fun s => [s]) "1895").2)) :=
  ⟨by decide,
    (claim_C4_improve_answer_span ["(", "1895", "-", "1943", ")", "."]
        (fun s => [s]) "1895" 0 5 _ rfl).2 1 1 (by decide) (by decide) (by decide)
      (by decide) (by decide)⟩

/-- Claim C5: the specification (and the comment in the source itself, lines
477-482) says a training answer whose recovered document text does not match
the supplied answer text is dropped with a warning and processing continues.
The code instead calls `logger.warning` with `logger` undefined in the module,
so a `NameError` escapes and the whole call fails.  First part: a single
mismatching instance turns the whole example stage into an error.  Second
part: with a second, perfectly valid question following, the call still fails
as a whole — processing does not continue, and the valid question produces
nothing. -/
theorem claim_C5_mismatch_raises_nameerror :
    buildQAExamples (.list ["ab"]) (.list ["q"]) [.scalar 0 "xy"] true none none =
      .error .nameError ∧
    buildQAExamples (.list ["ab", "cd"]) (.list ["q", "r"])
      [.scalar 0 "xy", .scalar 0 "cd"] true none none = .error .nameError := by
  exact ⟨rfl, rfl⟩

/-- Claim C8 counterexample: passing bare strings where sequences of strings
are required does not raise any error.  With `doc_text = "ab"` and
`question_text = "cd"` (plus two scalar answers), the pipeline silently zips
the strings character by character and produces two Examples: one pairing
document "a" with question "c", one pairing "b" with "d".  No
`InvalidInputError` exists and the call does not fail before producing
Examples, refuting the claim. -/
theorem claim_C8_counterexample :
    buildQAExamples (.str "ab") (.str "cd") [.scalar 0 "", .scalar 0 ""] false none none =
      .ok [⟨0, ["a"], "c", "", none, none, false⟩,
           ⟨1, ["b"], "d", "", none, none, false⟩] := by
  rfl

/-- One non-training question with scalar answer data always yields exactly
one Example and never an error. -/
theorem examplesLoop_scalar_nontraining :
    ∀ (tuples : List (String × String × PyAnswers × Nat × Bool)),
      (∀ tu ∈ tuples, ∃ n t, tu.2.2.1 = PyAnswers.scalar n t) →
      ∃ l, examplesLoop false tuples = .ok l ∧ l.length = tuples.length := by
  intro tuples
  induction tuples with
  | nil => intro _; exact ⟨[], rfl, rfl⟩
  | cons tu rest ih =>
    intro h
    obtain ⟨d, q, a, i, imp⟩ := tu
    obtain ⟨n, t, ha⟩ := h (d, q, a, i, imp) (List.mem_cons_self _ _)
    simp only at ha
    subst ha
    obtain ⟨l, hl, hlen⟩ := ih fun tu2 htu => h tu2 (List.mem_cons_of_mem _ htu)
    have hone : buildExamplesForQuestion false d q (.scalar n t) i imp =
        .ok [⟨i, (docTokenize d).1, q, t, none, none, imp⟩] := rfl
    refine ⟨⟨i, (docTokenize d).1, q, t, none, none, imp⟩ :: l, ?_, by simp [hlen]⟩
    simp only [examplesLoop, hone, hl, List.singleton_append]

/-- Length of a five-way zip: the minimum of the five lengths. -/
theorem zip5_length {α β γ δ ε : Type} :
    ∀ (a : List α) (b : List β) (c : List γ) (d : List δ) (e : List ε),
      (zip5 a b c d e).length =
        min (min (min (min a.length b.length) c.length) d.length) e.length := by
  intro a
  induction a with
  | nil =>
    intro b c d e
    rw [show zip5 ([] : List α) b c d e = [] from rfl]
    simp only [List.length_nil]
    omega
  | cons x xs ih =>
    intro b c d e
    cases b with
    | nil =>
      rw [show zip5 (x :: xs) ([] : List β) c d e = [] from rfl]
      simp only [List.length_nil, List.length_cons]
      omega
    | cons y ys =>
      cases c with
      | nil =>
        rw [show zip5 (x :: xs) (y :: ys) ([] : List γ) d e = [] from rfl]
        simp only [List.length_nil, List.length_cons]
        omega
      | cons z zs =>
        cases d with
        | nil =>
          rw [show zip5 (x :: xs) (y :: ys) (z :: zs) ([] : List δ) e = [] from rfl]
          simp only [List.length_nil, List.length_cons]
          omega
        | cons w ws =>
          cases e with
          | nil =>
            rw [show zip5 (x :: xs) (y :: ys) (z :: zs) (w :: ws) ([] : List ε) = []
              from rfl]
            simp only [List.length_nil, List.length_cons]
            omega
          | cons v vs =>
            rw [show zip5 (x :: xs) (y :: ys) (z :: zs) (w :: ws) (v :: vs) =
              (x, y, z, w, v) :: zip5 xs ys zs ws vs from rfl]
            simp only [List.length_cons]
            rw [ih ys zs ws vs]
            omega

/-- Iterating a bare Python string yields one entry per character. -/
theorem pyIter_str_length (s : String) : (pyIter (.str s)).length = s.length := by
  show (s.toList.map fun c => String.singleton c).length = s.length
  rw [List.length_map]
  rfl

/-- The answers component of a zipped tuple comes from the answers list. -/
theorem zip5_mem_third {α β δ ε : Type} :
    ∀ (a : List α) (b : List β) (c : List PyAnswers) (d : List δ) (e : List ε)
      (tu : α × β × PyAnswers × δ × ε),
      tu ∈ zip5 a b c d e → tu.2.2.1 ∈ c := by
  intro a
  induction a with
  | nil =>
    intro b c d e tu htu
    rw [show zip5 ([] : List α) b c d e = [] from rfl] at htu
    exact absurd htu (List.not_mem_nil tu)
  | cons x xs ih =>
    intro b c d e tu htu
    cases b with
    | nil =>
      rw [show zip5 (x :: xs) ([] : List β) c d e = [] from rfl] at htu
      exact absurd htu (List.not_mem_nil tu)
    | cons y ys =>
      cases c with
      | nil =>
        rw [show zip5 (x :: xs) (y :: ys) ([] : List PyAnswers) d e = [] from rfl] at htu
        exact absurd htu (List.not_mem_nil tu)
      | cons z zs =>
        cases d with
        | nil =>
          rw [show zip5 (x :: xs) (y :: ys) (z :: zs) ([] : List δ) e = [] from rfl] at htu
          exact absurd htu (List.not_mem_nil tu)
        | cons w ws =>
          cases e with
          | nil =>
            rw [show zip5 (x :: xs) (y :: ys) (z :: zs) (w :: ws) ([] : List ε) = []
              from rfl] at htu
            exact absurd htu (List.not_mem_nil tu)
          | cons v vs =>
            rw [show zip5 (x :: xs) (y :: ys) (z :: zs) (w :: ws) (v :: vs) =
              (x, y, z, w, v) :: zip5 xs ys zs ws vs from rfl] at htu
            rcases List.mem_cons.mp htu with htu | htu
            · subst htu; exact List.mem_cons_self _ _
            · exact List.mem_cons_of_mem _ (ih ys zs ws vs tu htu)

/-- Claim C8 (amended): `tokenize_qa` performs no scalar-versus-sequence
validation on `doc_text`/`question_text`.  A bare string passed for either is
silently iterated character by character; with scalar answer data in
non-training mode the example stage succeeds and produces exactly one Example
per zipped character pair (`min(len(doc string), len(question string),
len(answers))` of them) — no `InvalidInputError` or any other failure happens
before Examples are produced. -/
theorem claim_C8_no_scalar_validation (s q : String) (pairs : List (Nat × String)) :
    exceptOk (buildQAExamples (.str s) (.str q)
        (pairs.map fun pr => PyAnswers.scalar pr.1 pr.2) false none none) = true ∧
    (exceptExamples (buildQAExamples (.str s) (.str q)
        (pairs.map fun pr => PyAnswers.scalar pr.1 pr.2) false none none)).length =
      min (min s.length q.length) pairs.length := by
  have hscalar : ∀ tu ∈ zip5 (pyIter (.str s)) (pyIter (.str q))
      (pairs.map fun pr => PyAnswers.scalar pr.1 pr.2)
      (List.range (pyIter (.str q)).length)
      (List.replicate (pyIter (.str q)).length false),
      ∃ n t, tu.2.2.1 = PyAnswers.scalar n t := by
    intro tu htu
    have hmem := zip5_mem_third _ _ _ _ _ tu htu
    simp only [List.mem_map] at hmem
    obtain ⟨pr, _, hpr⟩ := hmem
    exact ⟨pr.1, pr.2, hpr.symm⟩
  obtain ⟨l, hl, hlen⟩ := examplesLoop_scalar_nontraining _ hscalar
  have hbuild : buildQAExamples (.str s) (.str q)
      (pairs.map fun pr => PyAnswers.scalar pr.1 pr.2) false none none =
      examplesLoop false (zip5 (pyIter (.str s)) (pyIter (.str q))
        (pairs.map fun pr => PyAnswers.scalar pr.1 pr.2)
        (List.range (pyIter (.str q)).length)
        (List.replicate (pyIter (.str q)).length false)) := rfl
  rw [hbuild, hl]
  constructor
  · rfl
  · show l.length = _
    rw [hlen, zip5_length]
    simp only [List.length_map, List.length_range, List.length_replicate,
      pyIter_str_length]
    omega

/-- When the assembled token sequence fits in `max_len`, one built feature has
all three fixed-length sequences of length exactly `max_len`, with
`input_ids`/`input_mask`/`segment_ids` right-padded with zeros and the mask 1
exactly on the real-token positions. -/
theorem buildFeature_lengths (convert : String → Int) (is_training : Bool) (max_len : Nat)
    (query_tokens all_doc_tokens : List String) (tok_to_orig_index : List Nat)
    (is_impossible : Bool) (tokPos : Option Int × Option Int) (example_index : Nat)
    (all_spans : List DocSpan) (span_index : Nat) (doc_span : DocSpan) (uid : Nat)
    (hfit : query_tokens.length +
      ((all_doc_tokens.drop doc_span.start.toNat).take doc_span.length.toNat).length + 3 ≤
      max_len) :
    ∀ f, buildFeature convert is_training max_len query_tokens all_doc_tokens
        tok_to_orig_index is_impossible tokPos example_index all_spans span_index
        doc_span uid = f →
      f.input_ids.length = max_len ∧ f.input_mask.length = max_len ∧
      f.segment_ids.length = max_len ∧
      f.input_ids = f.tokens.map convert ++ List.replicate (max_len - f.tokens.length) 0 ∧
      f.input_mask = List.replicate f.tokens.length 1 ++
        List.replicate (max_len - f.tokens.length) 0 ∧
      (∃ pre, pre.length = f.tokens.length ∧
        f.segment_ids = pre ++ List.replicate (max_len - f.tokens.length) 0) := by
  intro f hf
  have htokens : f.tokens = ["[CLS]"] ++ query_tokens ++ ["[SEP]"] ++
      ((all_doc_tokens.drop doc_span.start.toNat).take doc_span.length.toNat) ++
      ["[SEP]"] := by
    rw [← hf]
    rfl
  have htoklen : f.tokens.length = query_tokens.length +
      ((all_doc_tokens.drop doc_span.start.toNat).take doc_span.length.toNat).length + 3 := by
    rw [htokens]
    simp only [List.length_append, List.length_cons, List.length_nil]
    omega
  have hids : f.input_ids = f.tokens.map convert ++
      List.replicate (max_len - f.tokens.length) 0 := by
    rw [← hf]
    rfl
  have hmask0 : f.input_mask = f.tokens.map (fun _ => 1) ++
      List.replicate (max_len - f.tokens.length) 0 := by
    rw [← hf]
    rfl
  have hseglen : ([0] ++ query_tokens.map (fun _ => (0 : Nat)) ++ [0] ++
      ((all_doc_tokens.drop doc_span.start.toNat).take doc_span.length.toNat).map
        (fun _ => 1) ++ [1]).length = f.tokens.length := by
    rw [htoklen]
    simp only [List.length_append, List.length_cons, List.length_nil, List.length_map]
    omega
  have hseg0 : f.segment_ids = ([0] ++ query_tokens.map (fun _ => (0 : Nat)) ++ [0] ++
      ((all_doc_tokens.drop doc_span.start.toNat).take doc_span.length.toNat).map
        (fun _ => 1) ++ [1]) ++
      List.replicate (max_len - ([0] ++ query_tokens.map (fun _ => (0 : Nat)) ++ [0] ++
        ((all_doc_tokens.drop doc_span.start.toNat).take doc_span.length.toNat).map
          (fun _ => 1) ++ [1]).length) 0 := by
    rw [← hf]
    rfl
  refine ⟨?_, ?_, ?_, hids, ?_, ?_⟩
  · rw [hids]
    simp only [List.length_append, List.length_map, List.length_replicate]
    omega
  · rw [hmask0]
    simp only [List.length_append, List.length_map, List.length_replicate]
    omega
  · rw [hseg0]
    simp only [List.length_append, List.length_map, List.length_replicate,
      List.length_cons, List.length_nil]
    simp only [List.length_append, List.length_cons, List.length_nil, List.length_map]
      at hseglen
    omega
  · rw [hmask0, List.map_const']
  · refine ⟨[0] ++ query_tokens.map (fun _ => (0 : Nat)) ++ [0] ++
      ((all_doc_tokens.drop doc_span.start.toNat).take doc_span.length.toNat).map
        (fun _ => 1) ++ [1], hseglen, ?_⟩
    rw [hseg0, hseglen]

/-- Every feature produced by the per-example span loop is built by
`buildFeature` from some span of the processed tail. -/
theorem spansLoop_mem (convert : String → Int) (is_training : Bool) (max_len : Nat)
    (query_tokens all_doc_tokens : List String) (tok_to_orig_index : List Nat)
    (is_impossible : Bool) (tokPos : Option Int × Option Int) (example_index : Nat)
    (all_spans : List DocSpan) :
    ∀ (tail : List DocSpan) (idx uid : Nat) (f : QAFeature),
      f ∈ (spansLoop convert is_training max_len query_tokens all_doc_tokens
        tok_to_orig_index is_impossible tokPos example_index all_spans tail idx uid).1 →
      ∃ s ∈ tail, ∃ idx2 uid2,
        buildFeature convert is_training max_len query_tokens all_doc_tokens
          tok_to_orig_index is_impossible tokPos example_index all_spans idx2 s uid2 = f := by
  intro tail
  induction tail with
  | nil =>
    intro idx uid f hf
    exact absurd hf (List.not_mem_nil f)
  | cons s rest ih =>
    intro idx uid f hf
    rw [spansLoop] at hf
    rcases List.mem_cons.mp hf with hf | hf
    · exact ⟨s, List.mem_cons_self _ _, idx, uid, hf.symm⟩
    · obtain ⟨s2, hs2, idx2, uid2, hb⟩ := ih (idx + 1) (uid + 1) f hf
      exact ⟨s2, List.mem_cons_of_mem _ hs2, idx2, uid2, hb⟩

/-- Every feature produced by the outer example loop comes from a successful
`featuresForExample` call. -/
theorem featuresLoop_mem (tok : String → List String) (convert : String → Int)
    (is_training : Bool) (mql max_len : Nat) (stride : Int) :
    ∀ (exs : List QAExample) (ei uid : Nat) (features : List QAFeature),
      featuresLoop tok convert is_training mql max_len stride exs ei uid = some features →
      ∀ f ∈ features, ∃ ex ei2 uid2 r,
        featuresForExample tok convert is_training mql max_len stride ei2 ex uid2 =
          some r ∧ f ∈ r.1 := by
  intro exs
  induction exs with
  | nil =>
    intro ei uid features h f hf
    rw [featuresLoop] at h
    injection h with h2
    subst h2
    exact absurd hf (List.not_mem_nil f)
  | cons ex rest ih =>
    intro ei uid features h f hf
    rw [featuresLoop] at h
    rcases hfe : featuresForExample tok convert is_training mql max_len stride ei ex uid
      with _ | r
    · rw [hfe] at h
      exact absurd h (by simp)
    · rw [hfe] at h
      have h2 : (match featuresLoop tok convert is_training mql max_len stride rest
          (ei + 1) r.2 with
        | none => none
        | some more => some (r.1 ++ more)) = some features := h
      rcases hfl : featuresLoop tok convert is_training mql max_len stride rest (ei + 1) r.2
        with _ | more
      · rw [hfl] at h2
        exact absurd h2 (by simp)
      · rw [hfl] at h2
        injection h2 with h3
        subst h3
        rcases List.mem_append.mp hf with hf | hf
        · exact ⟨ex, ei, uid, r, hfe, hf⟩
        · exact ih (ei + 1) r.2 more hfl f hf

/-- Every feature of a successful pipeline run has its three fixed-length
sequences of length exactly `max_len`, right-padded with zeros, with the
attention mask 1 on real-token positions and 0 on padding.  This is the shape
invariant behind claims C6 and C9. -/
theorem tokenize_qa_feature_shape (tok : String → List String) (convert : String → Int)
    (doc_text question_text : PySeq) (answers : List PyAnswers) (is_training : Bool)
    (max_query_length max_len : Nat) (doc_stride : Int) (qa_id : Option (List Nat))
    (is_impossible : Option (List Bool)) :
    ∀ f ∈ qaResultFeatures (tokenize_qa tok convert doc_text question_text answers
        is_training max_query_length max_len doc_stride qa_id is_impossible),
      f.input_ids.length = max_len ∧ f.input_mask.length = max_len ∧
      f.segment_ids.length = max_len ∧
      f.input_ids = f.tokens.map convert ++ List.replicate (max_len - f.tokens.length) 0 ∧
      f.input_mask = List.replicate f.tokens.length 1 ++
        List.replicate (max_len - f.tokens.length) 0 ∧
      (∃ pre, pre.length = f.tokens.length ∧
        f.segment_ids = pre ++ List.replicate (max_len - f.tokens.length) 0) := by
  intro f hf
  rw [tokenize_qa] at hf
  rcases hex : buildQAExamples doc_text question_text answers is_training qa_id
    is_impossible with e | exs
  · rw [hex] at hf
    exact absurd hf (by simp [qaResultFeatures])
  · rw [hex] at hf
    have hfm : f ∈ qaResultFeatures (match featuresLoop tok convert is_training
        max_query_length max_len doc_stride exs 0 1000000000 with
      | none => Except.ok none
      | some features => Except.ok (some (features, exs))) := hf
    rcases hfl : featuresLoop tok convert is_training max_query_length max_len doc_stride
      exs 0 1000000000 with _ | features
    · rw [hfl] at hfm
      exact absurd hfm (by simp [qaResultFeatures])
    · rw [hfl] at hfm
      have hf2 : f ∈ features := hfm
      obtain ⟨ex, ei2, uid2, r, hfe, hfr⟩ := featuresLoop_mem tok convert is_training
        max_query_length max_len doc_stride exs 0 1000000000 features hfl f hf2
      rw [featuresForExample] at hfe
      rcases hds : docSpans ((subTokenize tok ex.doc_tokens).2.2.length : Int)
          ((max_len : Int) - (exQueryTokens tok max_query_length ex).length - 3)
          doc_stride with _ | ds
      · rw [hds] at hfe
        exact absurd hfe (by simp)
      · rw [hds] at hfe
        injection hfe with h2
        rw [← h2] at hfr
        obtain ⟨s, hs, idx2, uid3, hfb⟩ := spansLoop_mem convert is_training max_len
          (exQueryTokens tok max_query_length ex) (subTokenize tok ex.doc_tokens).2.2
          (subTokenize tok ex.doc_tokens).1 ex.is_impossible
          (exTokPositions tok is_training ex) ei2 ds ds 0 uid2 f hfr
        have hsound := docSpansLoop_sound ((subTokenize tok ex.doc_tokens).2.2.length : Int)
          ((max_len : Int) - (exQueryTokens tok max_query_length ex).length - 3) doc_stride
          ((((subTokenize tok ex.doc_tokens).2.2.length : Int)).toNat + 1) 0 ds hds
        have hlen_s := (hsound.1 s hs).2
        have hN_pos : 0 < ((subTokenize tok ex.doc_tokens).2.2.length : Int) := by
          by_contra hN
          push_neg at hN
          have hempty := hsound.2.2.1 (by omega)
          rw [hempty] at hs
          exact absurd hs (List.not_mem_nil s)
        have hmtfd_pos :
            0 < (max_len : Int) - (exQueryTokens tok max_query_length ex).length - 3 := by
          by_contra hm
          push_neg at hm
          have hdiv := docSpansLoop_diverge
            ((subTokenize tok ex.doc_tokens).2.2.length : Int)
            ((max_len : Int) - (exQueryTokens tok max_query_length ex).length - 3)
            doc_stride hm hN_pos
            ((((subTokenize tok ex.doc_tokens).2.2.length : Int)).toNat + 1) 0 (le_refl 0)
          rw [docSpans, hdiv] at hds
          exact absurd hds (by simp)
        have hfit : (exQueryTokens tok max_query_length ex).length +
            (((subTokenize tok ex.doc_tokens).2.2.drop s.start.toNat).take
              s.length.toNat).length + 3 ≤ max_len := by
          have hsl : s.length ≤
              (max_len : Int) - (exQueryTokens tok max_query_length ex).length - 3 := by
            rw [hlen_s]
            exact min_le_right _ _
          have hwl : (((subTokenize tok ex.doc_tokens).2.2.drop s.start.toNat).take
              s.length.toNat).length ≤ s.length.toNat := by
            simp only [List.length_take, List.length_drop]
            omega
          omega
        exact buildFeature_lengths convert is_training max_len
          (exQueryTokens tok max_query_length ex) (subTokenize tok ex.doc_tokens).2.2
          (subTokenize tok ex.doc_tokens).1 ex.is_impossible
          (exTokPositions tok is_training ex) ei2 ds idx2 s uid3 hfit f hfb

/-- Claim C6: every Feature emitted by the QA pipeline satisfies
`len(input_ids) = len(input_mask) = len(segment_ids) = max_len`, with all
three sequences right-padded with zeros up to `max_len` and the mask equal to
1 on every real-token position and 0 on every padding position, for all
inputs. -/
theorem claim_C6_fixed_width (tok : String → List String) (convert : String → Int)
    (doc_text question_text : PySeq) (answers : List PyAnswers) (is_training : Bool)
    (max_query_length max_len : Nat) (doc_stride : Int) (qa_id : Option (List Nat))
    (is_impossible : Option (List Bool)) (f : QAFeature)
    (hf : f ∈ qaResultFeatures (tokenize_qa tok convert doc_text question_text answers
      is_training max_query_length max_len doc_stride qa_id is_impossible)) :
    f.input_ids.length = max_len ∧ f.input_mask.length = max_len ∧
    f.segment_ids.length = max_len ∧
    f.input_ids = f.tokens.map convert ++ List.replicate (max_len - f.tokens.length) 0 ∧
    f.input_mask = List.replicate f.tokens.length 1 ++
      List.replicate (max_len - f.tokens.length) 0 ∧
    (∃ pre, pre.length = f.tokens.length ∧
      f.segment_ids = pre ++ List.replicate (max_len - f.tokens.length) 0) :=
  tokenize_qa_feature_shape tok convert doc_text question_text answers is_training
    max_query_length max_len doc_stride qa_id is_impossible f hf

/-- Witness for claim C6 on a concrete run with `max_len = 5`: document "a",
question "w", identity subword tokenizer, all token ids 1.  The produced
feature is spelled out literally. -/
theorem claim_C6_witness :
    (QAFeature.mk 1000000000 0 ["[CLS]", "w", "[SEP]", "a", "[SEP]"] [(3, 0)]
        [(3, true)] [1, 1, 1, 1, 1] [1, 1, 1, 1, 1] [0, 0, 0, 1, 1] 1 none
        none).input_ids.length = 5 ∧
    (QAFeature.mk 1000000000 0 ["[CLS]", "w", "[SEP]", "a", "[SEP]"] [(3, 0)]
        [(3, true)] [1, 1, 1, 1, 1] [1, 1, 1, 1, 1] [0, 0, 0, 1, 1] 1 none
        none).input_mask.length = 5 ∧
    (QAFeature.mk 1000000000 0 ["[CLS]", "w", "[SEP]", "a", "[SEP]"] [(3, 0)]
        [(3, true)] [1, 1, 1, 1, 1] [1, 1, 1, 1, 1] [0, 0, 0, 1, 1] 1 none
        none).segment_ids.length = 5 ∧
    (QAFeature.mk 1000000000 0 ["[CLS]", "w", "[SEP]", "a", "[SEP]"] [(3, 0)]
        [(3, true)] [1, 1, 1, 1, 1] [1, 1, 1, 1, 1] [0, 0, 0, 1, 1] 1 none
        none).input_ids =
      (["[CLS]", "w", "[SEP]", "a", "[SEP]"].map fun _ => (1 : Int)) ++
        List.replicate (5 - (["[CLS]", "w", "[SEP]", "a", "[SEP]"] : List String).length) 0 ∧
    (QAFeature.mk 1000000000 0 ["[CLS]", "w", "[SEP]", "a", "[SEP]"] [(3, 0)]
        [(3, true)] [1, 1, 1, 1, 1] [1, 1, 1, 1, 1] [0, 0, 0, 1, 1] 1 none
        none).input_mask =
      List.replicate (["[CLS]", "w", "[SEP]", "a", "[SEP]"] : List String).length 1 ++
        List.replicate (5 - (["[CLS]", "w", "[SEP]", "a", "[SEP]"] : List String).length) 0 ∧
    (∃ pre, pre.length = (["[CLS]", "w", "[SEP]", "a", "[SEP]"] : List String).length ∧
      (QAFeature.mk 1000000000 0 ["[CLS]", "w", "[SEP]", "a", "[SEP]"] [(3, 0)]
          [(3, true)] [1, 1, 1, 1, 1] [1, 1, 1, 1, 1] [0, 0, 0, 1, 1] 1 none
          none).segment_ids =
        pre ++ List.replicate
          (5 - (["[CLS]", "w", "[SEP]", "a", "[SEP]"] : List String).length) 0) :=
  claim_C6_fixed_width (fun s => [s]) (fun _ => 1) (.list ["a"]) (.list ["w"])
    [.scalar 0 "a"] false 64 5 128 none none
    (QAFeature.mk 1000000000 0 ["[CLS]", "w", "[SEP]", "a", "[SEP]"] [(3, 0)]
      [(3, true)] [1, 1, 1, 1, 1] [1, 1, 1, 1, 1] [0, 0, 0, 1, 1] 1 none none)
    (by decide)

set_option maxRecDepth 4096 in
/-- Claim C9 counterexample: the claim says `max_len` above the hard bound 512
is clamped to 512, so every emitted feature has sequences of length at most
512.  On a concrete run with `max_len = 600` the pipeline emits exactly one
feature and its `input_ids` has length 600, not at most 512: `tokenize_qa`
contains no clamping code at all (unlike the classification and NER
tokenizers in the same module). -/
theorem claim_C9_counterexample :
    ((qaResultFeatures (tokenize_qa (fun s => [s]) (fun _ => 1) (.list ["a"])
        (.list ["w"]) [.scalar 0 "a"] false 64 600 128 none none)).map
      fun f => f.input_ids.length) = [600] ∧ (512 : Nat) < 600 := by
  exact ⟨rfl, by norm_num⟩

/-- Claim C9 (amended): `tokenize_qa` does not clamp `max_len` at all; a value
above 512 is used as given, so every emitted Feature has fixed-length
sequences of length exactly `max_len`, which then exceeds 512. -/
theorem claim_C9_no_clamp (tok : String → List String) (convert : String → Int)
    (doc_text question_text : PySeq) (answers : List PyAnswers) (is_training : Bool)
    (max_query_length : Nat) (doc_stride : Int) (qa_id : Option (List Nat))
    (is_impossible : Option (List Bool)) (max_len : Nat) (h512 : 512 < max_len)
    (f : QAFeature)
    (hf : f ∈ qaResultFeatures (tokenize_qa tok convert doc_text question_text answers
      is_training max_query_length max_len doc_stride qa_id is_impossible)) :
    f.input_ids.length = max_len ∧ f.input_mask.length = max_len ∧
    f.segment_ids.length = max_len ∧ 512 < f.input_ids.length := by
  obtain ⟨h1, h2, h3, _⟩ := tokenize_qa_feature_shape tok convert doc_text question_text
    answers is_training max_query_length max_len doc_stride qa_id is_impossible f hf
  exact ⟨h1, h2, h3, by omega⟩

set_option maxRecDepth 4096 in
/-- Witness for the amended claim C9 on a concrete `max_len = 600` run. -/
theorem claim_C9_witness :
    (QAFeature.mk 1000000000 0 ["[CLS]", "w", "[SEP]", "a", "[SEP]"] [(3, 0)]
        [(3, true)] ([1, 1, 1, 1, 1] ++ List.replicate 595 0)
        ([1, 1, 1, 1, 1] ++ List.replicate 595 0)
        ([0, 0, 0, 1, 1] ++ List.replicate 595 0) 1 none none).input_ids.length = 600 ∧
    (QAFeature.mk 1000000000 0 ["[CLS]", "w", "[SEP]", "a", "[SEP]"] [(3, 0)]
        [(3, true)] ([1, 1, 1, 1, 1] ++ List.replicate 595 0)
        ([1, 1, 1, 1, 1] ++ List.replicate 595 0)
        ([0, 0, 0, 1, 1] ++ List.replicate 595 0) 1 none none).input_mask.length = 600 ∧
    (QAFeature.mk 1000000000 0 ["[CLS]", "w", "[SEP]", "a", "[SEP]"] [(3, 0)]
        [(3, true)] ([1, 1, 1, 1, 1] ++ List.replicate 595 0)
        ([1, 1, 1, 1, 1] ++ List.replicate 595 0)
        ([0, 0, 0, 1, 1] ++ List.replicate 595 0) 1 none none).segment_ids.length = 600 ∧
    512 < (QAFeature.mk 1000000000 0 ["[CLS]", "w", "[SEP]", "a", "[SEP]"] [(3, 0)]
        [(3, true)] ([1, 1, 1, 1, 1] ++ List.replicate 595 0)
        ([1, 1, 1, 1, 1] ++ List.replicate 595 0)
        ([0, 0, 0, 1, 1] ++ List.replicate 595 0) 1 none none).input_ids.length :=
  claim_C9_no_clamp (fun s => [s]) (fun _ => 1) (.list ["a"]) (.list ["w"])
    [.scalar 0 "a"] false 64 128 none none 600 (by norm_num)
    (QAFeature.mk 1000000000 0 ["[CLS]", "w", "[SEP]", "a", "[SEP]"] [(3, 0)]
      [(3, true)] ([1, 1, 1, 1, 1] ++ List.replicate 595 0)
      ([1, 1, 1, 1, 1] ++ List.replicate 595 0)
      ([0, 0, 0, 1, 1] ++ List.replicate 595 0) 1 none none)
    (by decide)

/-- Outside training mode, a built feature has Python `None` in both label
positions. -/
theorem buildFeature_nontraining (convert : String → Int) (max_len : Nat)
    (query_tokens all_doc_tokens : List String) (tok_to_orig_index : List Nat)
    (is_impossible : Bool) (tokPos : Option Int × Option Int) (example_index : Nat)
    (all_spans : List DocSpan) (span_index : Nat) (doc_span : DocSpan) (uid : Nat) :
    (buildFeature convert false max_len query_tokens all_doc_tokens tok_to_orig_index
      is_impossible tokPos example_index all_spans span_index doc_span
      uid).start_position = none ∧
    (buildFeature convert false max_len query_tokens all_doc_tokens tok_to_orig_index
      is_impossible tokPos example_index all_spans span_index doc_span
      uid).end_position = none := by
  constructor <;> rfl

/-- Outside training mode, every example built by the per-answer loop has
Python `None` in both word positions. -/
theorem processPairs_nontraining (impossible : Bool) (d_tokens : List String)
    (c2w : List Int) (q_text : String) (q_id : Nat) :
    ∀ (pairs : List (Nat × String)) (l : List QAExample),
      processPairs false impossible d_tokens c2w q_text q_id pairs = .ok l →
      ∀ e ∈ l, e.start_position = none ∧ e.end_position = none := by
  intro pairs
  induction pairs with
  | nil =>
    intro l h e he
    rw [processPairs] at h
    injection h with h2
    subst h2
    exact absurd he (List.not_mem_nil e)
  | cons pr rest ih =>
    intro l h e he
    obtain ⟨s, t⟩ := pr
    have h2 : (match processPairs false impossible d_tokens c2w q_text q_id rest with
      | .error e2 => Except.error e2
      | .ok more =>
        Except.ok (⟨q_id, d_tokens, q_text, t, none, none, impossible⟩ :: more)) =
        Except.ok l := h
    rcases hrec : processPairs false impossible d_tokens c2w q_text q_id rest
      with e2 | more
    · rw [hrec] at h2
      exact absurd h2 (by simp)
    · rw [hrec] at h2
      injection h2 with h3
      subst h3
      rcases List.mem_cons.mp he with he | he
      · subst he
        exact ⟨rfl, rfl⟩
      · exact ih more hrec e he

/-- Outside training mode, every example built for one question has `None`
positions (for all answer shapes; questions flagged impossible included). -/
theorem buildExamplesForQuestion_nontraining (d q : String) (a : PyAnswers)
    (q_id : Nat) (imp : Bool) :
    ∀ l, buildExamplesForQuestion false d q a q_id imp = .ok l →
      ∀ e ∈ l, e.start_position = none ∧ e.end_position = none := by
  intro l h
  rcases a with ⟨n, t⟩ | ⟨ss, ts⟩
  · exact processPairs_nontraining imp (docTokenize d).1 (docTokenize d).2 q q_id
      [(n, t)] l h
  · simp only [buildExamplesForQuestion] at h
    by_cases h1 : ss.length ≠ ts.length
    · rw [if_pos h1] at h
      exact absurd h (by simp)
    · rw [if_neg h1] at h
      rw [if_neg (by simp)] at h
      exact processPairs_nontraining imp (docTokenize d).1 (docTokenize d).2 q q_id
        (ss.zip ts) l h

/-- Outside training mode, every example produced by the outer example loop
has `None` positions. -/
theorem examplesLoop_nontraining :
    ∀ (tuples : List (String × String × PyAnswers × Nat × Bool)) (l : List QAExample),
      examplesLoop false tuples = .ok l →
      ∀ e ∈ l, e.start_position = none ∧ e.end_position = none := by
  intro tuples
  induction tuples with
  | nil =>
    intro l h e he
    rw [examplesLoop] at h
    injection h with h2
    subst h2
    exact absurd he (List.not_mem_nil e)
  | cons tu rest ih =>
    intro l h e he
    obtain ⟨d, q, a, i, imp⟩ := tu
    rw [examplesLoop] at h
    rcases hb : buildExamplesForQuestion false d q a i imp with e2 | exs
    · rw [hb] at h
      exact absurd h (by simp)
    · rw [hb] at h
      have h2 : (match examplesLoop false rest with
        | .error e2 => Except.error e2
        | .ok more => Except.ok (exs ++ more)) = Except.ok l := h
      rcases hrec : examplesLoop false rest with e2 | more
      · rw [hrec] at h2
        exact absurd h2 (by simp)
      · rw [hrec] at h2
        injection h2 with h3
        subst h3
        rcases List.mem_append.mp he with he | he
        · exact buildExamplesForQuestion_nontraining d q a i imp exs hb e he
        · exact ih more hrec e he

/-- Outside training mode, every example produced by the example stage has
`None` positions. -/
theorem buildQAExamples_nontraining (doc_text question_text : PySeq)
    (answers : List PyAnswers) (qa_id : Option (List Nat))
    (imps : Option (List Bool)) :
    ∀ l, buildQAExamples doc_text question_text answers false qa_id imps = .ok l →
      ∀ e ∈ l, e.start_position = none ∧ e.end_position = none := by
  intro l h
  exact examplesLoop_nontraining _ l h

/-- Claim C10: whenever `is_training` is false, every Feature returned by the
QA pipeline has `start_position = None` and `end_position = None` (no
`cls_index` or other sentinel is substituted), and every returned Example
likewise has `None` in both positions — including for questions flagged
impossible, for all inputs. -/
theorem claim_C10_nontraining_positions (tok : String → List String)
    (convert : String → Int) (doc_text question_text : PySeq)
    (answers : List PyAnswers) (max_query_length max_len : Nat) (doc_stride : Int)
    (qa_id : Option (List Nat)) (is_impossible : Option (List Bool)) :
    (∀ f ∈ qaResultFeatures (tokenize_qa tok convert doc_text question_text answers
        false max_query_length max_len doc_stride qa_id is_impossible),
      f.start_position = none ∧ f.end_position = none) ∧
    (∀ e ∈ qaResultExamples (tokenize_qa tok convert doc_text question_text answers
        false max_query_length max_len doc_stride qa_id is_impossible),
      e.start_position = none ∧ e.end_position = none) := by
  constructor
  · intro f hf
    rw [tokenize_qa] at hf
    rcases hex : buildQAExamples doc_text question_text answers false qa_id
      is_impossible with e2 | exs
    · rw [hex] at hf
      exact absurd hf (by simp [qaResultFeatures])
    · rw [hex] at hf
      have hfm : f ∈ qaResultFeatures (match featuresLoop tok convert false
          max_query_length max_len doc_stride exs 0 1000000000 with
        | none => Except.ok none
        | some features => Except.ok (some (features, exs))) := hf
      rcases hfl : featuresLoop tok convert false max_query_length max_len doc_stride
        exs 0 1000000000 with _ | features
      · rw [hfl] at hfm
        exact absurd hfm (by simp [qaResultFeatures])
      · rw [hfl] at hfm
        have hf2 : f ∈ features := hfm
        obtain ⟨ex, ei2, uid2, r, hfe, hfr⟩ := featuresLoop_mem tok convert false
          max_query_length max_len doc_stride exs 0 1000000000 features hfl f hf2
        rw [featuresForExample] at hfe
        rcases hds : docSpans ((subTokenize tok ex.doc_tokens).2.2.length : Int)
            ((max_len : Int) - (exQueryTokens tok max_query_length ex).length - 3)
            doc_stride with _ | ds
        · rw [hds] at hfe
          exact absurd hfe (by simp)
        · rw [hds] at hfe
          injection hfe with h2
          rw [← h2] at hfr
          obtain ⟨s, hs, idx2, uid3, hfb⟩ := spansLoop_mem convert false max_len
            (exQueryTokens tok max_query_length ex) (subTokenize tok ex.doc_tokens).2.2
            (subTokenize tok ex.doc_tokens).1 ex.is_impossible
            (exTokPositions tok false ex) ei2 ds ds 0 uid2 f hfr
          rw [← hfb]
          exact buildFeature_nontraining convert max_len
            (exQueryTokens tok max_query_length ex) (subTokenize tok ex.doc_tokens).2.2
            (subTokenize tok ex.doc_tokens).1 ex.is_impossible
            (exTokPositions tok false ex) ei2 ds idx2 s uid3
  · intro e he
    rw [tokenize_qa] at he
    rcases hex : buildQAExamples doc_text question_text answers false qa_id
      is_impossible with e2 | exs
    · rw [hex] at he
      exact absurd he (by simp [qaResultExamples])
    · rw [hex] at he
      have hem : e ∈ qaResultExamples (match featuresLoop tok convert false
          max_query_length max_len doc_stride exs 0 1000000000 with
        | none => Except.ok none
        | some features => Except.ok (some (features, exs))) := he
      rcases hfl : featuresLoop tok convert false max_query_length max_len doc_stride
        exs 0 1000000000 with _ | features
      · rw [hfl] at hem
        exact absurd hem (by simp [qaResultExamples])
      · rw [hfl] at hem
        have he2 : e ∈ exs := hem
        exact buildQAExamples_nontraining doc_text question_text answers qa_id
          is_impossible exs hex e he2

/-- Witness for claim C10 on the concrete `max_len = 5` run: the single
emitted feature and the single retained example both carry `None`
positions. -/
theorem claim_C10_witness :
    ((QAFeature.mk 1000000000 0 ["[CLS]", "w", "[SEP]", "a", "[SEP]"] [(3, 0)]
        [(3, true)] [1, 1, 1, 1, 1] [1, 1, 1, 1, 1] [0, 0, 0, 1, 1] 1 none
        none).start_position = none ∧
     (QAFeature.mk 1000000000 0 ["[CLS]", "w", "[SEP]", "a", "[SEP]"] [(3, 0)]
        [(3, true)] [1, 1, 1, 1, 1] [1, 1, 1, 1, 1] [0, 0, 0, 1, 1] 1 none
        none).end_position = none) ∧
    ((QAExample.mk 0 ["a"] "w" "a" none none false).start_position = none ∧
     (QAExample.mk 0 ["a"] "w" "a" none none false).end_position = none) :=
  ⟨(claim_C10_nontraining_positions (fun s => [s]) (fun _ => 1) (.list ["a"])
      (.list ["w"]) [.scalar 0 "a"] 64 5 128 none none).1
    (QAFeature.mk 1000000000 0 ["[CLS]", "w", "[SEP]", "a", "[SEP]"] [(3, 0)]
      [(3, true)] [1, 1, 1, 1, 1] [1, 1, 1, 1, 1] [0, 0, 0, 1, 1] 1 none none)
    (by decide),
   (claim_C10_nontraining_positions (fun s => [s]) (fun _ => 1) (.list ["a"])
      (.list ["w"]) [.scalar 0 "a"] 64 5 128 none none).2
    (QAExample.mk 0 ["a"] "w" "a" none none false) (by decide)⟩
